import Mathlib

/-!
Shallow embedding of the goliatone/go-errors repository: the structured
`Error` data model (errors.go / mapper_helpers.go), the validation
sub-model (FieldError / ValidationErrors), the `RetryableError` decorator
(retryable.go), and the `ErrorCollector` (collector file).

Conventions of the embedding:
* Go `string` is Lean `String`; Go `int` / `int64` / `time.Duration` are
  `Int` (with explicit 64-bit wrapping where multiplication can overflow);
  Go `time.Time` is an abstract `Int` instant.
* Go maps (`map[Category]int`, `map[string]any`, …) are modelled as
  association lists with unique keys built in insertion order; since Go's
  map iteration order is unspecified, every operation of the source that
  *ranges* over a map takes the range sequence as an explicit parameter,
  constrained in the theorems to be a permutation of the association list.
* A fallible operation (one that can panic) returns `Option`; `none`
  models the panic.
* Pointer/slice aliasing (Clone independence, snapshot copies) is
  modelled separately with an explicit store in the second half of the
  file; the value-level model below captures the data content.
-/

namespace GoErrors

/-- Category is a string-backed open enumeration (categories.go). -/
abbrev Category := String

def CategoryValidation : Category := "validation"

def CategoryAuth : Category := "authentication"

def CategoryNotFound : Category := "not_found"

def CategoryInternal : Category := "internal"

def CategoryExternal : Category := "external"

def CategoryOperation : Category := "operation"

/-- Modelled from the spec: `type Severity int` — the file defining the
Severity enumeration is not under src/ (only its callers, tests and the
README document it).  Spec §3: "a totally ordered enumeration:
`Debug < Info < Warning < Error < Critical < Fatal`". -/
abbrev Severity := Int

def SeverityDebug : Severity := 0

def SeverityInfo : Severity := 1

def SeverityWarning : Severity := 2

def SeverityError : Severity := 3

def SeverityCritical : Severity := 4

def SeverityFatal : Severity := 5

/-- FieldError represents a single validation error for a given field
(validation file).  The optional `Value any` field is never read by any
operation modelled here and is omitted. -/
structure FieldError where
  field : String
  message : String
deriving DecidableEq

/-- ErrorLocation: file, line, function (location file). -/
structure Loc where
  file : String
  line : Int
  function : String
deriving DecidableEq

/-- Values stored in an Error's `Metadata map[string]any`.  Only the
shapes the modelled code actually stores are represented. -/
inductive MVal where
  | int (n : Int)
  | time (t : Int)
  | catStats (m : List (Category × Nat))
  | sevStats (m : List (Severity × Nat))
  | str (s : String)
deriving DecidableEq

/-- Association-list lookup (first binding wins; keys are kept unique by
the update operations, mirroring a Go map). -/
def alookup {α β : Type} [DecidableEq α] : List (α × β) → α → Option β
  | [], _ => none
  | (a, b) :: rest, k => if a = k then some b else alookup rest k

/-- Go map assignment `m[k] = v`: replace the binding if the key is
present, else append a new binding (insertion order). -/
def asetKV {α β : Type} [DecidableEq α] : List (α × β) → α → β → List (α × β)
  | [], k, v => [(k, v)]
  | (a, b) :: rest, k, v =>
    if a = k then (a, v) :: rest else (a, b) :: asetKV rest k v

/-- Go map increment `stats[k]++` starting from the zero value
(categoryStatsUnsafe / severityDistributionUnsafe). -/
def bump {α : Type} [DecidableEq α] : List (α × Nat) → α → List (α × Nat)
  | [], k => [(k, 1)]
  | (a, n) :: rest, k =>
    if a = k then (a, n + 1) :: rest else (a, n) :: bump rest k

/-- The `error` interface value held in an Error's `Source` field (and
fed to `Wrap` / `ErrorCollector.Add`).  `ofError` is a `*errors.Error`
(carrying all of its fields, so that source chains can recurse);
`foreignValidation` is an ozzo `validation.Errors` map (listed in some
iteration order); `plain` is any other error, exposing only its message;
`nil` is the nil interface value. -/
inductive Src : Type where
  | nil : Src
  | plain (msg : String) : Src
  | foreignValidation (entries : List (String × String)) : Src
  | ofError (category : Category) (code : Int) (textCode : String)
      (message : String) (source : Src) (validationErrors : List FieldError)
      (metadata : List (String × MVal)) (timestamp : Int)
      (location : Option Loc) (severity : Severity) : Src
deriving DecidableEq

/-- The Error struct (mapper_helpers.go).  `RequestID` and `StackTrace`
are carried by no operation modelled here and are omitted.  The
`severity` field is modelled from the spec: the file declaring it is not
under src/ (spec §3: "severity: Severity (defaults to Error)"). -/
structure Error where
  category : Category
  code : Int
  textCode : String
  message : String
  source : Src
  validationErrors : List FieldError
  metadata : List (String × MVal)
  timestamp : Int
  location : Option Loc
  severity : Severity
deriving DecidableEq

/-- View an Error as the `error` interface value `*Error`. -/
def Error.toSrc (e : Error) : Src :=
  .ofError e.category e.code e.textCode e.message e.source e.validationErrors
    e.metadata e.timestamp e.location e.severity

/-- errors.As with target `**Error`: succeeds exactly on a `*Error`
value, yielding it.  (`plain` and `foreignValidation` errors expose no
`Unwrap`, so no chain traversal occurs for them.) -/
def Src.toError? : Src → Option Error
  | .ofError c co tc m s v md ts l sv => some ⟨c, co, tc, m, s, v, md, ts, l, sv⟩
  | _ => none

/-- ValidationErrors.Error(): joined `"field: message"` parts, or the
literal `"validation failed"` when empty (validation file). -/
def validationErrorsString (l : List FieldError) : String :=
  if l = [] then "validation failed"
  else String.intercalate "; " (l.map fun fe => fe.field ++ ": " ++ fe.message)

/-- The Error() rendering of an `error` interface value.  For `*Error`
this mirrors `Error.Error()` in mapper_helpers.go (with the default
`Verbose = false`, so no location part).  For a foreign validation map
the exact ozzo rendering (key-sorted, trailing period) is irrelevant to
every claim and is approximated by the same join. -/
def Src.errMessage : Src → String
  | .nil => "<nil>"
  | .plain msg => msg
  | .foreignValidation entries =>
    String.intercalate "; " (entries.map fun p => p.1 ++ ": " ++ p.2)
  | .ofError cat _ tc msg src vErrs md _ _ _ =>
    let head := if tc ≠ "" then "[" ++ cat ++ ":" ++ tc ++ "] " ++ msg
      else "[" ++ cat ++ "] " ++ msg
    let parts := [head]
      ++ (if vErrs ≠ [] then ["validation: " ++ validationErrorsString vErrs] else [])
      ++ (match src with
          | .nil => []
          | s => ["source: " ++ s.errMessage])
      ++ (if md ≠ [] then ["metadata: " ++ toString md.length ++ " items"] else [])
    String.intercalate "; " parts

/-- New(message, category...): category defaults to CategoryInternal;
timestamp and location capture are nondeterministic inputs passed
explicitly.  The severity default (SeverityError) is modelled from the
spec (§3). -/
def New (message : String) (category : Option Category) (now : Int)
    (loc : Option Loc) : Error :=
  { category := category.getD CategoryInternal
    code := 0
    textCode := ""
    message := message
    source := .nil
    validationErrors := []
    metadata := []
    timestamp := now
    location := loc
    severity := SeverityError }

/-- Wrap(source, category, message) (mapper_helpers.go): nil source gives
nil; a source that As-classifies as `*Error` is cloned with the new
message prefixed (keeping its original category, location, validation
errors and source); any other source is linked as the cause of a fresh
Error. -/
def Wrap (source : Src) (category : Category) (message : String)
    (now : Int) (loc : Option Loc) : Option Error :=
  match source with
  | .nil => none
  | s =>
    match s.toError? with
    | some e => some { e with message := message ++ ": " ++ e.message }
    | none =>
      some { category := category
             code := 0
             textCode := ""
             message := message
             source := s
             validationErrors := []
             metadata := []
             timestamp := now
             location := loc
             severity := SeverityError }

/-- Modelled from the spec: `GetSeverity` (its defining file is not under
src/) returns the error's severity, which every constructor initialises
to the spec's default. -/
def Error.GetSeverity (e : Error) : Severity := e.severity

/-- Modelled from the spec: `WithSeverity` sets the severity field. -/
def Error.WithSeverity (e : Error) (s : Severity) : Error :=
  { e with severity := s }

/-- WithMetadata: `maps.Copy(e.Metadata, meta)` for one metadata map,
given as its binding sequence (last write wins per key). -/
def Error.WithMetadata (e : Error) (meta : List (String × MVal)) : Error :=
  { e with metadata := meta.foldl (fun m p => asetKV m p.1 p.2) e.metadata }

/-- NewValidation(message, fieldErrors...) (validation file). -/
def NewValidation (message : String) (fieldErrors : List FieldError)
    (now : Int) : Error :=
  { category := CategoryValidation
    code := 0
    textCode := ""
    message := message
    source := .nil
    validationErrors := fieldErrors
    metadata := []
    timestamp := now
    location := none
    severity := SeverityError }

/-! ## RetryableError (retryable.go) -/

/-- time.Second in nanoseconds (time.Duration is an int64 nanosecond
count). -/
def second : Int := 1000000000

/-- Two's-complement wrap of an Int into the int64 range, for the one
place (`delay *= 2`) where Go's defined wrap-around overflow can occur. -/
def wrap64 (x : Int) : Int := (x + 2 ^ 63) % 2 ^ 64 - 2 ^ 63

/-- One iteration of the RetryDealy loop body: the loop
`for i := 1; i < attempt && delay < 30*time.Second; i++ { delay *= 2 }`
runs `attempt - 1` times of this step — once `delay` reaches 30s the
step is the identity, exactly like the early exit. -/
def retryStep (d : Int) : Int := if d < 30 * second then wrap64 (d * 2) else d

/-- RetryableError decorates a (possibly nil) BaseError. -/
structure RetryableError where
  base : Option Error
  retryable : Bool
  baseDelay : Int
deriving DecidableEq

/-- RetryDealy (sic — the source's name) computes the backoff delay
(retryable.go lines 28–42). -/
def RetryableError.RetryDealy (r : RetryableError) (attempt : Int) : Int :=
  if attempt ≤ 0 then r.baseDelay
  else
    let d := retryStep^[(attempt - 1).toNat] r.baseDelay
    if d > 30 * second then 30 * second else d

/-- NewRetryable(message, category): retryable, 1 second base delay. -/
def NewRetryable (message : String) (category : Category) (now : Int)
    (loc : Option Loc) : RetryableError :=
  { base := some (New message (some category) now loc)
    retryable := true
    baseDelay := 1 * second }

/-! ## ErrorCollector (collector file) -/

/-- ErrorCollector state: the entry slice, capacity and overflow policy.
The mutex only serialises access and the context is never consulted by
the modelled operations; both are omitted. -/
structure ErrorCollector where
  errors : List Error
  maxErrors : Int
  strictMode : Bool
deriving DecidableEq

/-- CollectorOption is a functional option. -/
def CollectorOption := ErrorCollector → ErrorCollector

/-- WithMaxErrors sets the capacity. -/
def WithMaxErrors (max : Int) : CollectorOption :=
  fun c => { c with maxErrors := max }

/-- WithStrictMode sets the overflow policy. -/
def WithStrictMode (strict : Bool) : CollectorOption :=
  fun c => { c with strictMode := strict }

/-- NewCollector: defaults maxErrors = 100, lenient mode, then applies
the options in order. -/
def NewCollector (opts : List CollectorOption) : ErrorCollector :=
  opts.foldl (fun c opt => opt c)
    { errors := [], maxErrors := 100, strictMode := false }

/-- The conversion performed by Add: a source that As-classifies as
`*Error` is stored as-is; any other error is wrapped via
`Wrap(err, CategoryInternal, err.Error())` — which, the source being
non-nil and not an `*Error` here, is Wrap's fresh-Error branch. -/
def addConvert (err : Src) (now : Int) (loc : Option Loc) : Error :=
  match err.toError? with
  | some customErr => customErr
  | none =>
    { category := CategoryInternal
      code := 0
      textCode := ""
      message := err.errMessage
      source := err
      validationErrors := []
      metadata := []
      timestamp := now
      location := loc
      severity := SeverityError }

/-- ErrorCollector.Add.  `none` models the panic of `c.errors[1:]` on an
empty slice (slice bounds out of range), which lenient mode reaches
whenever the capacity check fires with no stored entry. -/
def ErrorCollector.add (c : ErrorCollector) (err : Src) (now : Int)
    (loc : Option Loc) : Option (ErrorCollector × Bool) :=
  match err with
  | .nil => some (c, true)
  | _ =>
    if (c.errors.length : Int) ≥ c.maxErrors then
      if c.strictMode then some (c, false)
      else
        match c.errors with
        | [] => none
        | _ :: rest =>
          some ({ c with errors := rest ++ [addConvert err now loc] }, true)
    else some ({ c with errors := c.errors ++ [addConvert err now loc] }, true)

/-- ErrorCollector.Count. -/
def ErrorCollector.count (c : ErrorCollector) : Nat := c.errors.length

/-- categoryStatsUnsafe: the `map[Category]int` of per-category counts,
as its insertion-ordered binding list. -/
def ErrorCollector.categoryStatsList (c : ErrorCollector) :
    List (Category × Nat) :=
  c.errors.foldl (fun s e => bump s e.category) []

/-- severityDistributionUnsafe: the `map[Severity]int` of per-severity
counts, as its insertion-ordered binding list. -/
def ErrorCollector.severityStatsList (c : ErrorCollector) :
    List (Severity × Nat) :=
  c.errors.foldl (fun s e => bump s e.GetSeverity) []

/-- mostCommonCategoryUnsafe's loop over the category stats map, with the
map's range sequence given explicitly (Go map iteration order is
unspecified): start from CategoryInternal / count 0 and replace on a
strictly greater count. -/
def mostCommonCategoryOrder (stats : List (Category × Nat)) : Category :=
  (stats.foldl (fun acc p => if p.2 > acc.2 then p else acc)
    (CategoryInternal, 0)).1

/-- MostCommonCategory, with the stats map's range sequence explicit. -/
def ErrorCollector.MostCommonCategoryWith (_c : ErrorCollector)
    (order : List (Category × Nat)) : Category :=
  mostCommonCategoryOrder order

/-- Merge's highest-severity loop over the keys of the severity stats
map, with the range sequence explicit: start from SeverityDebug and
replace on a strictly greater key. -/
def highestSeverityOrder (stats : List (Severity × Nat)) : Severity :=
  stats.foldl (fun h p => if p.1 > h then p.1 else h) SeverityDebug

/-- ErrorCollector.Merge, with the two stats maps' range sequences
explicit (`catOrder`, `sevOrder` — constrained in the theorems to be
permutations of the respective binding lists) and the aggregate's
`time.Now()` timestamp / captured location as explicit inputs.  The
single-entry branch returns the clone's value content (reference
independence of Clone is handled by the store model below). -/
def ErrorCollector.MergeWith (c : ErrorCollector)
    (catOrder : List (Category × Nat)) (sevOrder : List (Severity × Nat))
    (now : Int) (loc : Option Loc) : Option Error :=
  match c.errors with
  | [] => none
  | [e] => some e
  | e₀ :: e₁ :: rest =>
    let entries := e₀ :: e₁ :: rest
    let aggregate :=
      ((New "Multiple errors occurred" (some (mostCommonCategoryOrder catOrder))
          now loc).WithSeverity
        (highestSeverityOrder sevOrder)).WithMetadata
        [("error_count", .int (entries.length : Int)),
         ("category_stats", .catStats catOrder),
         ("severity_stats", .sevStats sevOrder),
         ("aggregated_at", .time e₀.timestamp)]
    let allValidationErrors := (entries.map Error.validationErrors).flatten
    if allValidationErrors.length > 0 then
      some { aggregate with validationErrors := allValidationErrors }
    else some aggregate

/-! ## ValidationMap / AllValidationErrors (mapper_helpers.go) -/

/-- Go map assignment on the string→string result map. -/
def strSet : List (String × String) → String → String → List (String × String)
  | [], k, v => [(k, v)]
  | (a, b) :: rest, k, v =>
    if a = k then (a, v) :: rest else (a, b) :: strSet rest k v

/-- Key formation of allValidationMapWithPath: bare field at the root,
`path.field` below it. -/
def mkKey (pfx field : String) : String :=
  if pfx = "" then field else pfx ++ "." ++ field

/-- Prefix extension when descending into an `*Error` source. -/
def newPfx (pfx : String) : String :=
  if pfx = "" then "source" else pfx ++ ".source"

/-- Phase one of allValidationMapWithPath: the Error's own validation
errors, assigned into the fresh result map under their (possibly
prefixed) keys — last write wins per field. -/
def vmapOwn (vErrs : List FieldError) (pfx : String) : List (String × String) :=
  vErrs.foldl (fun r fe => strSet r (mkKey pfx fe.field) fe.message) []

/-- Phase two of allValidationMapWithPath: a foreign `validation.Errors`
source is folded in (entries trimmed, listed in the foreign map's
iteration order) only when the own list is empty. -/
def vmapForeign (vErrs : List FieldError) (src : Src) (pfx : String)
    (r₁ : List (String × String)) : List (String × String) :=
  if vErrs = [] then
    match src with
    | .foreignValidation entries =>
      entries.foldl (fun r p => strSet r (mkKey pfx p.1) p.2.trim) r₁
    | _ => r₁
  else r₁

/-- allValidationMapWithPath, as a recursion over the `*Error` viewed as
an interface value: the two phases above, then an `*Error` source's map
(under the extended path prefix) merged in, its bindings overwriting. -/
def Src.vmapAux : Src → String → List (String × String)
  | .ofError _ _ _ _ src vErrs _ _ _ _, pfx =>
    match src with
    | .ofError .. => (Src.vmapAux src (newPfx pfx)).foldl
        (fun r p => strSet r p.1 p.2)
        (vmapForeign vErrs src pfx (vmapOwn vErrs pfx))
    | _ => vmapForeign vErrs src pfx (vmapOwn vErrs pfx)
  | _, _ => []

/-- Error.ValidationMap: `e.allValidationMapWithPath("")`, the resulting
`map[string]string` given as its insertion-ordered binding list. -/
def Error.ValidationMap (e : Error) : List (String × String) :=
  Src.vmapAux e.toSrc ""

/-- AllValidationErrors, as a recursion over the `*Error` viewed as an
interface value: own entries in order; foreign `validation.Errors`
entries (trimmed) only when the own list is empty; then the `*Error`
source's entries recursively. -/
def Src.allVErrsAux : Src → List FieldError
  | .ofError _ _ _ _ src vErrs _ _ _ _ =>
    let all₁ := vErrs
    let all₂ :=
      if vErrs = [] then
        match src with
        | .foreignValidation entries =>
          all₁ ++ entries.map (fun p => FieldError.mk p.1 p.2.trim)
        | _ => all₁
      else all₁
    match src with
    | .ofError .. => all₂ ++ Src.allVErrsAux src
    | _ => all₂
  | _ => []

/-- Error.AllValidationErrors. -/
def Error.AllValidationErrors (e : Error) : List FieldError :=
  Src.allVErrsAux e.toSrc

/-! ## Store model of Go slice/map references

Clone independence and the collector's snapshot discipline are aliasing
facts; they are modelled with an explicit store per Go reference type.
A cell index stands for a slice header / map reference; allocation
(`make`, `append` to nil) appends a fresh cell, and mutation through a
reference writes its cell. -/

/-- A store of Go heap cells of one reference type. -/
structure Store (α : Type) where
  cells : List α

/-- Number of allocated cells. -/
def Store.size {α : Type} (s : Store α) : Nat := s.cells.length

/-- Dereference. -/
def Store.read {α : Type} (s : Store α) (i : Nat) : Option α := s.cells.get? i

/-- Mutation through a reference. -/
def Store.write {α : Type} (s : Store α) (i : Nat) (v : α) : Store α :=
  ⟨s.cells.set i v⟩

/-- Allocation: a fresh cell holding `v`, returning its reference. -/
def Store.alloc {α : Type} (s : Store α) (v : α) : Store α × Nat :=
  (⟨s.cells ++ [v]⟩, s.cells.length)

/-- An `*Error` in the reference model: the two mutable collection
fields hold references (`none` = Go nil slice/map); everything else is a
value.  The `source` is a shared reference that Clone copies shallowly,
exactly as the source does. -/
structure ErrorR where
  category : Category
  code : Int
  textCode : String
  message : String
  source : Src
  valRef : Option Nat
  metaRef : Option Nat
  timestamp : Int
  location : Option Loc
  severity : Severity
deriving DecidableEq

/-- The heap: cells for every Go reference type the collector's
operations allocate. -/
structure CHeap where
  ecells : Store (List ErrorR)
  vcells : Store (List FieldError)
  mcells : Store (List (String × MVal))
  ccells : Store (List (Category × Nat))
  scells : Store (List (Severity × Nat))

/-- Error.Clone (mapper_helpers.go lines 269–287): shallow copy, then a
fresh copy of ValidationErrors and of Metadata when they are non-nil
(a nil slice/map stays nil). -/
def ErrorR.CloneR (e : ErrorR) (h : CHeap) : ErrorR × CHeap :=
  let vres : Option Nat × Store (List FieldError) :=
    match e.valRef with
    | none => (none, h.vcells)
    | some i =>
      let av := h.vcells.alloc ((h.vcells.read i).getD [])
      (some av.2, av.1)
  let mres : Option Nat × Store (List (String × MVal)) :=
    match e.metaRef with
    | none => (none, h.mcells)
    | some j =>
      let am := h.mcells.alloc ((h.mcells.read j).getD [])
      (some am.2, am.1)
  ({ e with valRef := vres.1, metaRef := mres.1 },
   { h with vcells := vres.2, mcells := mres.2 })

/-- The collector in the reference model: it owns a reference to the
live entry slice. -/
structure CollectorR where
  eref : Nat
  maxErrors : Int
  strictMode : Bool

/-- The live entry slice of the collector. -/
def CollectorR.entries (c : CollectorR) (h : CHeap) : List ErrorR :=
  (h.ecells.read c.eref).getD []

/-- The value content of an entry's validation-error slice. -/
def ErrorR.vlist (e : ErrorR) (h : CHeap) : List FieldError :=
  match e.valRef with
  | none => []
  | some i => (h.vcells.read i).getD []

/-- ErrorCollector.Merge in the reference model.  Zero entries: nil.
One entry: its Clone (fresh cells).  Multiple entries: the aggregate
Error of the value model, its metadata map and (if non-empty) its
concatenated validation slice freshly allocated. -/
def CollectorR.MergeR (c : CollectorR) (h : CHeap)
    (catOrder : List (Category × Nat)) (sevOrder : List (Severity × Nat))
    (now : Int) (loc : Option Loc) : Option (ErrorR × CHeap) :=
  match c.entries h with
  | [] => none
  | [e] => some (e.CloneR h)
  | e₀ :: e₁ :: rest =>
    let entries := e₀ :: e₁ :: rest
    let am := h.mcells.alloc
      [("error_count", MVal.int (entries.length : Int)),
       ("category_stats", MVal.catStats catOrder),
       ("severity_stats", MVal.sevStats sevOrder),
       ("aggregated_at", MVal.time e₀.timestamp)]
    let allValidationErrors := (entries.map (fun e => e.vlist h)).flatten
    let vres : Option Nat × Store (List FieldError) :=
      if allValidationErrors.length > 0 then
        let av := h.vcells.alloc allValidationErrors
        (some av.2, av.1)
      else (none, h.vcells)
    some ({ category := mostCommonCategoryOrder catOrder
            code := 0
            textCode := ""
            message := "Multiple errors occurred"
            source := .nil
            valRef := vres.1
            metaRef := some am.2
            timestamp := now
            location := loc
            severity := highestSeverityOrder sevOrder },
          { h with mcells := am.1, vcells := vres.2 })

/-- ErrorCollector.Errors (collector file lines 237–245):
`result := make([]*Error, len(c.errors)); copy(result, c.errors)` — a
fresh slice holding the same entries. -/
def CollectorR.ErrorsOp (c : CollectorR) (h : CHeap) : CHeap × Nat :=
  ({ h with ecells := (h.ecells.alloc (c.entries h)).1 },
   (h.ecells.alloc (c.entries h)).2)

/-- FilterBySeverity: entries with severity at or above the minimum,
appended to a nil slice (a fresh allocation). -/
def CollectorR.FilterBySeverityOp (c : CollectorR) (minSev : Severity)
    (h : CHeap) : CHeap × Nat :=
  ({ h with ecells :=
      (h.ecells.alloc ((c.entries h).filter (fun e => e.severity ≥ minSev))).1 },
   (h.ecells.alloc ((c.entries h).filter (fun e => e.severity ≥ minSev))).2)

/-- FilterByCategory: exact category matches, appended to a nil slice. -/
def CollectorR.FilterByCategoryOp (c : CollectorR) (cat : Category)
    (h : CHeap) : CHeap × Nat :=
  ({ h with ecells :=
      (h.ecells.alloc ((c.entries h).filter (fun e => e.category = cat))).1 },
   (h.ecells.alloc ((c.entries h).filter (fun e => e.category = cat))).2)

/-- GetValidationErrors: every entry's validation errors concatenated
onto a nil slice (a fresh allocation in the FieldError-slice store). -/
def CollectorR.GetValidationErrorsOp (c : CollectorR) (h : CHeap) :
    CHeap × Nat :=
  ({ h with vcells :=
      (h.vcells.alloc (((c.entries h).map (fun e => e.vlist h)).flatten)).1 },
   (h.vcells.alloc (((c.entries h).map (fun e => e.vlist h)).flatten)).2)

/-- CategoryStats: a freshly made `map[Category]int`. -/
def CollectorR.CategoryStatsOp (c : CollectorR) (h : CHeap) : CHeap × Nat :=
  ({ h with ccells :=
      (h.ccells.alloc ((c.entries h).foldl (fun s e => bump s e.category) [])).1 },
   (h.ccells.alloc ((c.entries h).foldl (fun s e => bump s e.category) [])).2)

/-- SeverityDistribution: a freshly made `map[Severity]int`. -/
def CollectorR.SeverityDistributionOp (c : CollectorR) (h : CHeap) :
    CHeap × Nat :=
  ({ h with scells :=
      (h.scells.alloc ((c.entries h).foldl (fun s e => bump s e.severity) [])).1 },
   (h.scells.alloc ((c.entries h).foldl (fun s e => bump s e.severity) [])).2)

/-- Count of collected entries carrying a given category (the spec's
"most frequent entry category" is measured by this count). -/
def categoryCount (l : List Error) (cat : Category) : Nat :=
  (l.filter (fun e => e.category = cat)).length

/-! ## Store lemmas -/

theorem list_get_append_self {α : Type} (l : List α) (v : α) :
    (l ++ [v]).get? l.length = some v := by
  induction l with
  | nil => rfl
  | cons x rest ih => simp [ih]

theorem list_get_append_old {α : Type} (l : List α) (v : α) (i : Nat)
    (h : i < l.length) : (l ++ [v]).get? i = l.get? i := by
  induction l generalizing i with
  | nil => simp at h
  | cons x rest ih =>
    cases i with
    | zero => rfl
    | succ n =>
      simp only [List.length_cons] at h
      simpa using ih n (by omega)

theorem list_get_set_ne {α : Type} (l : List α) (i j : Nat) (v : α)
    (h : i ≠ j) : (l.set i v).get? j = l.get? j := by
  induction l generalizing i j with
  | nil => rfl
  | cons x rest ih =>
    cases i with
    | zero =>
      cases j with
      | zero => exact absurd rfl h
      | succ m => rfl
    | succ n =>
      cases j with
      | zero => rfl
      | succ m => simpa using ih n m (by omega)

theorem Store.read_alloc_self {α : Type} (s : Store α) (v : α) :
    (s.alloc v).1.read (s.alloc v).2 = some v := by
  simp only [Store.alloc, Store.read]
  exact list_get_append_self s.cells v

theorem Store.read_alloc_old {α : Type} (s : Store α) (v : α) {i : Nat}
    (h : i < s.size) : (s.alloc v).1.read i = s.read i := by
  simp only [Store.alloc, Store.read]
  exact list_get_append_old s.cells v i h

theorem Store.read_write_ne {α : Type} (s : Store α) {i j : Nat} (v : α)
    (h : i ≠ j) : (s.write i v).read j = s.read j := by
  simp only [Store.write, Store.read]
  exact list_get_set_ne s.cells i j v h

theorem Store.alloc_fresh_ne {α : Type} (s : Store α) (v : α) {i : Nat}
    (h : i < s.size) : (s.alloc v).2 ≠ i := by
  simp only [Store.alloc, Store.size] at *
  omega

/-! ## Association-list lemmas -/

theorem alookup_bump_self {α : Type} [DecidableEq α]
    (s : List (α × Nat)) (k : α) :
    alookup (bump s k) k = some ((alookup s k).getD 0 + 1) := by
  induction s with
  | nil => simp [bump, alookup]
  | cons p rest ih =>
    obtain ⟨a, n⟩ := p
    by_cases hp : a = k
    · simp [bump, alookup, hp]
    · simp [bump, alookup, hp, ih]

theorem alookup_bump_ne {α : Type} [DecidableEq α]
    (s : List (α × Nat)) (k j : α) (h : j ≠ k) :
    alookup (bump s k) j = alookup s j := by
  have hkj : ¬k = j := fun hk => h hk.symm
  induction s with
  | nil => simp [bump, alookup, hkj]
  | cons p rest ih =>
    obtain ⟨a, n⟩ := p
    by_cases hp : a = k
    · have haj : ¬a = j := fun hj => hkj (hp ▸ hj)
      simp [bump, alookup, hp, haj, hkj]
    · by_cases hj : a = j <;> simp [bump, alookup, hp, hj, ih, h]

theorem alookup_eq_none_iff {α β : Type} [DecidableEq α]
    (s : List (α × β)) (k : α) :
    alookup s k = none ↔ k ∉ s.map Prod.fst := by
  induction s with
  | nil => simp [alookup]
  | cons p rest ih =>
    obtain ⟨a, b⟩ := p
    by_cases hp : a = k
    · simp [alookup, hp]
    · have hk : ¬k = a := fun hk => hp hk.symm
      simp [alookup, hp, ih, hk]

theorem alookup_mem {α β : Type} [DecidableEq α]
    (s : List (α × β)) (k : α) (v : β) (h : alookup s k = some v) :
    (k, v) ∈ s := by
  induction s with
  | nil => simp [alookup] at h
  | cons p rest ih =>
    obtain ⟨a, b⟩ := p
    by_cases hp : a = k
    · rw [alookup, if_pos hp] at h
      subst hp
      simp_all
    · rw [alookup, if_neg hp] at h
      exact .tail _ (ih h)

theorem mem_alookup_nodup {α β : Type} [DecidableEq α]
    (s : List (α × β)) (k : α) (v : β)
    (hnd : (s.map Prod.fst).Nodup) (hm : (k, v) ∈ s) :
    alookup s k = some v := by
  induction s with
  | nil => simp at hm
  | cons p rest ih =>
    obtain ⟨a, b⟩ := p
    rw [List.map_cons, List.nodup_cons] at hnd
    rcases List.mem_cons.mp hm with heq | htl
    · rw [alookup, if_pos (congrArg Prod.fst heq.symm)]
      exact congrArg some (congrArg Prod.snd heq.symm)
    · have hk : ¬a = k := by
        intro hpk
        subst hpk
        exact hnd.1 (List.mem_map.mpr ⟨(a, v), htl, rfl⟩)
      rw [alookup, if_neg hk]
      exact ih hnd.2 htl

theorem bump_keys_mem {α : Type} [DecidableEq α]
    (s : List (α × Nat)) (k x : α) :
    x ∈ (bump s k).map Prod.fst ↔ x ∈ s.map Prod.fst ∨ x = k := by
  induction s with
  | nil => simp [bump]
  | cons p rest ih =>
    obtain ⟨a, n⟩ := p
    by_cases hp : a = k
    · subst hp
      simp [bump]
      tauto
    · simp [bump, hp, ih]
      tauto

theorem bump_keys_nodup {α : Type} [DecidableEq α]
    (s : List (α × Nat)) (k : α) (h : (s.map Prod.fst).Nodup) :
    ((bump s k).map Prod.fst).Nodup := by
  induction s with
  | nil => simp [bump]
  | cons p rest ih =>
    obtain ⟨a, n⟩ := p
    rw [List.map_cons, List.nodup_cons] at h
    by_cases hp : a = k
    · rw [bump, if_pos hp, List.map_cons, List.nodup_cons]
      exact h
    · rw [bump, if_neg hp, List.map_cons, List.nodup_cons]
      refine ⟨fun hmem => ?_, ih h.2⟩
      rcases (bump_keys_mem rest k a).mp hmem with hin | heq
      · exact h.1 hin
      · exact hp heq

theorem statsFold_lookupD {α β : Type} [DecidableEq α] (f : β → α) (k : α) :
    ∀ (l : List β) (init : List (α × Nat)),
    (alookup (l.foldl (fun s e => bump s (f e)) init) k).getD 0 =
      (alookup init k).getD 0 + (l.filter (fun e => f e = k)).length := by
  intro l
  induction l with
  | nil => simp
  | cons e rest ih =>
    intro init
    simp only [List.foldl_cons, ih]
    by_cases he : f e = k
    · rw [he, alookup_bump_self]
      simp [List.filter_cons, he]
      omega
    · rw [alookup_bump_ne _ _ _ (fun hk => he hk.symm)]
      simp [List.filter_cons, he]

theorem statsFold_keys_mem {α β : Type} [DecidableEq α] (f : β → α) (k : α) :
    ∀ (l : List β) (init : List (α × Nat)),
    k ∈ ((l.foldl (fun s e => bump s (f e)) init).map Prod.fst) ↔
      k ∈ init.map Prod.fst ∨ ∃ e ∈ l, f e = k := by
  intro l
  induction l with
  | nil => simp
  | cons e rest ih =>
    intro init
    simp only [List.foldl_cons, ih, bump_keys_mem]
    constructor
    · rintro (⟨hin | heq⟩ | ⟨x, hx, hfx⟩)
      · exact .inl hin
      · exact .inr ⟨e, by simp, heq.symm⟩
      · exact .inr ⟨x, by simp [hx], hfx⟩
    · rintro (hin | ⟨x, hx, hfx⟩)
      · exact .inl (.inl hin)
      · rcases List.mem_cons.mp hx with hxe | hxr
        · exact .inl (.inr (hxe ▸ hfx).symm)
        · exact .inr ⟨x, hxr, hfx⟩

theorem statsFold_keys_nodup {α β : Type} [DecidableEq α] (f : β → α) :
    ∀ (l : List β) (init : List (α × Nat)),
    (init.map Prod.fst).Nodup →
    ((l.foldl (fun s e => bump s (f e)) init).map Prod.fst).Nodup := by
  intro l
  induction l with
  | nil => exact fun init h => h
  | cons e rest ih =>
    intro init h
    exact ih (bump init (f e)) (bump_keys_nodup init (f e) h)

/-! ## Claim theorems -/

/-- C10: MostCommonCategory on a collector holding zero entries returns
the internal category (the fallback value) — for every iteration order
of the (empty) stats map. -/
theorem C10_mostCommonCategory_empty (c : ErrorCollector)
    (order : List (Category × Nat)) (hc : c.errors = [])
    (horder : order.Perm c.categoryStatsList) :
    c.MostCommonCategoryWith order = CategoryInternal := by
  have hstats : c.categoryStatsList = [] := by
    simp [ErrorCollector.categoryStatsList, hc]
  have hnil : order = [] := (hstats ▸ horder).eq_nil
  simp [ErrorCollector.MostCommonCategoryWith, mostCommonCategoryOrder, hnil]

/-- C10 witness: a fresh collector. -/
theorem C10_mostCommonCategory_empty_witness :
    (NewCollector []).errors = [] ∧
    (NewCollector []).MostCommonCategoryWith [] = CategoryInternal :=
  ⟨rfl, C10_mostCommonCategory_empty (NewCollector []) [] rfl (by decide)⟩

/-- C4 (code bug): with two entries whose categories tie (one validation,
one authentication), mostCommonCategoryUnsafe returns whichever tied
category the Go map range visits first — two legal iteration orders of
the same stats map give two different answers, and neither is the
internal category the code's own comment ("or CategoryInternal if tied")
and the spec promise. -/
theorem C4_tie_depends_on_iteration_order :
    (ErrorCollector.mk
        [New "a" (some CategoryValidation) 0 none,
         New "b" (some CategoryAuth) 0 none] 100 false).categoryStatsList =
      [(CategoryValidation, 1), (CategoryAuth, 1)] ∧
    [(CategoryAuth, 1), (CategoryValidation, 1)].Perm
      [(CategoryValidation, 1), (CategoryAuth, 1)] ∧
    mostCommonCategoryOrder [(CategoryValidation, 1), (CategoryAuth, 1)] =
      CategoryValidation ∧
    mostCommonCategoryOrder [(CategoryAuth, 1), (CategoryValidation, 1)] =
      CategoryAuth ∧
    CategoryValidation ≠ CategoryInternal ∧
    CategoryAuth ≠ CategoryInternal := by
  refine ⟨by decide, .swap .., by decide, by decide, by decide, by decide⟩

/-- C9: Add panics (models as `none`) exactly on the lenient overflow of
a collector that can hold no entry: with `maxErrors ≤ 0` in lenient mode
the first Add of a non-nil error slices `c.errors[1:]` off an empty
slice; with `maxErrors ≥ 1` Add never panics. -/
theorem C9_add_panics_iff_no_capacity (c : ErrorCollector) (err : Src)
    (now : Int) (loc : Option Loc) :
    (c.strictMode = false → c.maxErrors ≤ 0 → c.errors = [] → err ≠ .nil →
      c.add err now loc = none) ∧
    (1 ≤ c.maxErrors → (c.add err now loc).isSome = true) := by
  constructor
  · intro hs hm he hn
    have hge : ((c.errors.length : Int) ≥ c.maxErrors) := by
      rw [he]
      simp
      omega
    cases err with
    | nil => exact absurd rfl hn
    | plain m => simp [ErrorCollector.add, he, hs, hge, hm]
    | foreignValidation entries => simp [ErrorCollector.add, he, hs, hge, hm]
    | ofError c₁ c₂ c₃ c₄ c₅ c₆ c₇ c₈ c₉ c₁₀ =>
      simp [ErrorCollector.add, he, hs, hge, hm]
  · intro h1
    cases err with
    | nil => simp [ErrorCollector.add]
    | plain m =>
      rw [ErrorCollector.add]
      case x => exact fun h => Src.noConfusion h
      split
      · split
        · simp
        · rename_i hfull _
          match hE : c.errors, hfull with
          | [], hfull => simp at hfull; omega
          | _ :: rest, _ => simp
      · simp
    | foreignValidation entries =>
      rw [ErrorCollector.add]
      case x => exact fun h => Src.noConfusion h
      split
      · split
        · simp
        · rename_i hfull _
          match hE : c.errors, hfull with
          | [], hfull => simp at hfull; omega
          | _ :: rest, _ => simp
      · simp
    | ofError c₁ c₂ c₃ c₄ c₅ c₆ c₇ c₈ c₉ c₁₀ =>
      rw [ErrorCollector.add]
      case x => exact fun h => Src.noConfusion h
      split
      · split
        · simp
        · rename_i hfull _
          match hE : c.errors, hfull with
          | [], hfull => simp at hfull; omega
          | _ :: rest, _ => simp
      · simp

/-- C2: Add with a non-nil error on a collector already holding
maxErrors entries: strict mode returns false and leaves the stored entry
sequence unchanged; lenient mode (with a positive capacity — a
nonpositive one cannot "hold maxErrors entries" and panics, see C9)
drops the oldest entry, appends the converted new one, returns true, and
the count stays at maxErrors. -/
theorem C2_add_at_capacity (c : ErrorCollector) (err : Src) (now : Int)
    (loc : Option Loc) (hlen : (c.errors.length : Int) = c.maxErrors)
    (hn : err ≠ .nil) :
    (c.strictMode = true → c.add err now loc = some (c, false)) ∧
    (c.strictMode = false → 1 ≤ c.maxErrors →
      ∃ oldest rest, c.errors = oldest :: rest ∧
        c.add err now loc =
          some ({ c with errors := rest ++ [addConvert err now loc] }, true) ∧
        (((rest ++ [addConvert err now loc]).length : Int) = c.maxErrors)) := by
  have hge : ((c.errors.length : Int) ≥ c.maxErrors) := le_of_eq hlen.symm
  constructor
  · intro hs
    cases err with
    | nil => exact absurd rfl hn
    | plain m => simp [ErrorCollector.add, hs, hge]
    | foreignValidation entries => simp [ErrorCollector.add, hs, hge]
    | ofError c₁ c₂ c₃ c₄ c₅ c₆ c₇ c₈ c₉ c₁₀ =>
      simp [ErrorCollector.add, hs, hge]
  · intro hs h1
    have hpos : 1 ≤ c.errors.length := by
      have : (1 : Int) ≤ (c.errors.length : Int) := hlen ▸ h1
      exact_mod_cast this
    match hE : c.errors, hpos with
    | oldest :: rest, _ =>
      have hlen2 : ((rest.length : Int) + 1) = c.maxErrors := by
        rw [hE] at hlen
        simp at hlen
        omega
      refine ⟨oldest, rest, rfl, ?_, ?_⟩
      · cases err with
        | nil => exact absurd rfl hn
        | plain m =>
          simp [ErrorCollector.add, hE, hs]
          omega
        | foreignValidation entries =>
          simp [ErrorCollector.add, hE, hs]
          omega
        | ofError c₁ c₂ c₃ c₄ c₅ c₆ c₇ c₈ c₉ c₁₀ =>
          simp [ErrorCollector.add, hE, hs]
          omega
      · have : ((oldest :: rest).length : Int) = c.maxErrors := hE ▸ hlen
        simp at this ⊢
        omega

/-- C2 witness: a strict and a lenient collector at capacity 1. -/
theorem C2_add_at_capacity_witness :
    ((ErrorCollector.mk [New "old" none 0 none] 1 true).add
        (.plain "new") 0 none =
      some (ErrorCollector.mk [New "old" none 0 none] 1 true, false)) ∧
    ((ErrorCollector.mk [New "old" none 0 none] 1 false).add
        (.plain "new") 0 none =
      some (ErrorCollector.mk [addConvert (.plain "new") 0 none] 1 false, true)) := by
  constructor
  · exact (C2_add_at_capacity (ErrorCollector.mk [New "old" none 0 none] 1 true)
      (.plain "new") 0 none (by decide) (by decide)).1 rfl
  · obtain ⟨oldest, rest, hE, hadd, hlen⟩ :=
      (C2_add_at_capacity (ErrorCollector.mk [New "old" none 0 none] 1 false)
        (.plain "new") 0 none (by decide) (by decide)).2 rfl (by decide)
    obtain ⟨h₁, h₂⟩ : oldest = New "old" none 0 none ∧ rest = [] := by
      cases hE
      exact ⟨rfl, rfl⟩
    rw [hadd, h₂]
    rfl

/-- C7: Wrap on a non-nil source that is itself an Error returns a clone
of it with the new message prefixed onto the original message
(no nesting: the result's source is the original's source), preserving
the original's location and validation errors; only a non-Error source
produces a new Error that links the source as its cause. -/
theorem C7_wrap_clones_errors (e : Error) (s : Src) (cat : Category)
    (msg : String) (now : Int) (loc : Option Loc) :
    (∃ w, Wrap e.toSrc cat msg now loc = some w ∧
      w.message = msg ++ ": " ++ e.message ∧
      w.location = e.location ∧
      w.validationErrors = e.validationErrors ∧
      w.source = e.source ∧
      w.category = e.category ∧
      w.metadata = e.metadata ∧
      w.timestamp = e.timestamp) ∧
    (s ≠ .nil → s.toError? = none →
      Wrap s cat msg now loc = some
        { category := cat
          code := 0
          textCode := ""
          message := msg
          source := s
          validationErrors := []
          metadata := []
          timestamp := now
          location := loc
          severity := SeverityError }) := by
  constructor
  · exact ⟨{ e with message := msg ++ ": " ++ e.message },
      by cases e; rfl, rfl, rfl, rfl, rfl, rfl, rfl, rfl⟩
  · intro hn hne
    cases s with
    | nil => exact absurd rfl hn
    | plain m => rfl
    | foreignValidation entries => rfl
    | ofError c₁ c₂ c₃ c₄ c₅ c₆ c₇ c₈ c₉ c₁₀ => simp [Src.toError?] at hne

/-- C7 witness: wrapping an Error and wrapping a plain error. -/
theorem C7_wrap_clones_errors_witness :
    (∃ w, Wrap (New "inner" (some CategoryExternal) 3 none).toSrc
        CategoryInternal "ctx" 9 none = some w ∧
      w.message = "ctx" ++ ": " ++ (New "inner" (some CategoryExternal) 3 none).message ∧
      w.location = (New "inner" (some CategoryExternal) 3 none).location ∧
      w.validationErrors = (New "inner" (some CategoryExternal) 3 none).validationErrors ∧
      w.source = (New "inner" (some CategoryExternal) 3 none).source ∧
      w.category = (New "inner" (some CategoryExternal) 3 none).category ∧
      w.metadata = (New "inner" (some CategoryExternal) 3 none).metadata ∧
      w.timestamp = (New "inner" (some CategoryExternal) 3 none).timestamp) ∧
    (Wrap (.plain "io failure") CategoryExternal "ctx" 9 none = some
      { category := CategoryExternal
        code := 0
        textCode := ""
        message := "ctx"
        source := .plain "io failure"
        validationErrors := []
        metadata := []
        timestamp := 9
        location := none
        severity := SeverityError }) :=
  ⟨(C7_wrap_clones_errors (New "inner" (some CategoryExternal) 3 none)
      (.plain "io failure") CategoryInternal "ctx" 9 none).1,
   (C7_wrap_clones_errors (New "inner" (some CategoryExternal) 3 none)
      (.plain "io failure") CategoryExternal "ctx" 9 none).2
     (by decide) rfl⟩

theorem list_get_lt {α : Type} (l : List α) (i : Nat) (h : i < l.length) :
    ∃ x, l.get? i = some x := by
  induction l generalizing i with
  | nil => simp at h
  | cons a rest ih =>
    cases i with
    | zero => exact ⟨a, rfl⟩
    | succ n =>
      refine ih n ?_
      simp at h
      omega

theorem Store.read_of_lt {α : Type} (s : Store α) {i : Nat}
    (h : i < s.size) : ∃ x, s.read i = some x :=
  list_get_lt s.cells i h

/-- C3: Merge on zero entries returns nil; on exactly one entry it
returns a clone that is content-equal to the stored entry but a distinct
instance — its validation-error slice and metadata map live in freshly
allocated cells, so mutating either through the returned clone never
changes what the collector's stored entry references. -/
theorem C3_merge_zero_and_singleton_clone (c : CollectorR) (h : CHeap)
    (e : ErrorR) (catOrder : List (Category × Nat))
    (sevOrder : List (Severity × Nat)) (now : Int) (loc : Option Loc)
    (i j : Nat) :
    (c.entries h = [] → c.MergeR h catOrder sevOrder now loc = none) ∧
    (c.entries h = [e] → e.valRef = some i → i < h.vcells.size →
     e.metaRef = some j → j < h.mcells.size →
      ∃ e' h', c.MergeR h catOrder sevOrder now loc = some (e', h') ∧
        e'.category = e.category ∧ e'.code = e.code ∧
        e'.textCode = e.textCode ∧ e'.message = e.message ∧
        e'.source = e.source ∧ e'.timestamp = e.timestamp ∧
        e'.location = e.location ∧ e'.severity = e.severity ∧
        e'.valRef = some h.vcells.size ∧ e'.metaRef = some h.mcells.size ∧
        h.vcells.size ≠ i ∧ h.mcells.size ≠ j ∧
        h'.vcells.read h.vcells.size = h.vcells.read i ∧
        h'.mcells.read h.mcells.size = h.mcells.read j ∧
        (∀ v, (h'.vcells.write h.vcells.size v).read i = h.vcells.read i) ∧
        (∀ m, (h'.mcells.write h.mcells.size m).read j = h.mcells.read j)) := by
  constructor
  · intro he
    simp [CollectorR.MergeR, he]
  · intro he hv hiv hm hjm
    obtain ⟨lv, hlv⟩ := h.vcells.read_of_lt hiv
    obtain ⟨lm, hlm⟩ := h.mcells.read_of_lt hjm
    refine ⟨{ e with valRef := some h.vcells.size, metaRef := some h.mcells.size },
      { h with vcells := (h.vcells.alloc lv).1, mcells := (h.mcells.alloc lm).1 },
      ?_, rfl, rfl, rfl, rfl, rfl, rfl, rfl, rfl, rfl, rfl,
      by omega, by omega, ?_, ?_, ?_, ?_⟩
    · simp only [CollectorR.MergeR, he, ErrorR.CloneR, hv, hm, hlv, hlm,
        Option.getD_some, Store.alloc, Store.size]
    · rw [show (h.vcells.alloc lv).1.read h.vcells.size =
          (h.vcells.alloc lv).1.read (h.vcells.alloc lv).2 from rfl,
        Store.read_alloc_self, hlv]
    · rw [show (h.mcells.alloc lm).1.read h.mcells.size =
          (h.mcells.alloc lm).1.read (h.mcells.alloc lm).2 from rfl,
        Store.read_alloc_self, hlm]
    · intro v
      rw [Store.read_write_ne _ _ (by omega), Store.read_alloc_old _ _ hiv]
    · intro m
      rw [Store.read_write_ne _ _ (by omega), Store.read_alloc_old _ _ hjm]

/-- C3 witness: a one-entry collector with concrete heap cells. -/
theorem C3_merge_zero_and_singleton_clone_witness :
    ((CollectorR.mk 1 100 false).entries
        (CHeap.mk (Store.mk [[], []]) (Store.mk [[FieldError.mk "f" "m"]])
          (Store.mk [[("k", MVal.int 1)]]) (Store.mk []) (Store.mk [])) = [] →
      (CollectorR.mk 1 100 false).MergeR
        (CHeap.mk (Store.mk [[], []]) (Store.mk [[FieldError.mk "f" "m"]])
          (Store.mk [[("k", MVal.int 1)]]) (Store.mk []) (Store.mk []))
        [] [] 0 none = none) ∧
    ∃ e' h',
      (CollectorR.mk 0 100 false).MergeR
        (CHeap.mk
          (Store.mk [[ErrorR.mk CategoryValidation 0 "" "m" .nil (some 0) (some 0) 7 none SeverityError]])
          (Store.mk [[FieldError.mk "f" "m"]])
          (Store.mk [[("k", MVal.int 1)]]) (Store.mk []) (Store.mk []))
        [] [] 0 none = some (e', h') ∧
      e'.valRef = some 1 ∧ e'.metaRef = some 1 ∧
      (∀ v, (h'.vcells.write 1 v).read 0 = some [FieldError.mk "f" "m"]) := by
  constructor
  · exact fun he => (C3_merge_zero_and_singleton_clone (CollectorR.mk 1 100 false)
      (CHeap.mk (Store.mk [[], []]) (Store.mk [[FieldError.mk "f" "m"]])
        (Store.mk [[("k", MVal.int 1)]]) (Store.mk []) (Store.mk []))
      (ErrorR.mk CategoryValidation 0 "" "m" .nil none none 0 none 0)
      [] [] 0 none 0 0).1 he
  · obtain ⟨e', h', hmerge, _, _, _, _, _, _, _, _, hval, hmeta, _, _, _, _, hwv, _⟩ :=
      (C3_merge_zero_and_singleton_clone (CollectorR.mk 0 100 false)
        (CHeap.mk
          (Store.mk [[ErrorR.mk CategoryValidation 0 "" "m" .nil (some 0) (some 0) 7 none SeverityError]])
          (Store.mk [[FieldError.mk "f" "m"]])
          (Store.mk [[("k", MVal.int 1)]]) (Store.mk []) (Store.mk []))
        (ErrorR.mk CategoryValidation 0 "" "m" .nil (some 0) (some 0) 7 none SeverityError)
        [] [] 0 none 0 0).2 rfl rfl (by decide) rfl (by decide)
    exact ⟨e', h', hmerge, hval, hmeta, fun v => (hwv v).trans rfl⟩

/-- C8: every collection-returning read of the collector hands back a
freshly allocated cell, never the live internal slice: the returned
reference differs from the collector's entry-slice reference (and from
every entry's validation-slice reference for the validation aggregate),
writing through the returned reference never changes what the collector
references, and the snapshot's content is the appropriate function of
the internal content. -/
theorem C8_reads_return_independent_copies (c : CollectorR) (h : CHeap)
    (he : c.eref < h.ecells.size)
    (hvalid : ∀ e ∈ c.entries h, ∀ iv, e.valRef = some iv → iv < h.vcells.size) :
    ((c.ErrorsOp h).2 ≠ c.eref ∧
      (c.ErrorsOp h).1.ecells.read (c.ErrorsOp h).2 = some (c.entries h) ∧
      (∀ v, ((c.ErrorsOp h).1.ecells.write (c.ErrorsOp h).2 v).read c.eref =
        h.ecells.read c.eref)) ∧
    (∀ minSev,
      (c.FilterBySeverityOp minSev h).2 ≠ c.eref ∧
      (c.FilterBySeverityOp minSev h).1.ecells.read (c.FilterBySeverityOp minSev h).2 =
        some ((c.entries h).filter (fun e => e.severity ≥ minSev)) ∧
      (∀ v, ((c.FilterBySeverityOp minSev h).1.ecells.write
          (c.FilterBySeverityOp minSev h).2 v).read c.eref =
        h.ecells.read c.eref)) ∧
    (∀ cat,
      (c.FilterByCategoryOp cat h).2 ≠ c.eref ∧
      (c.FilterByCategoryOp cat h).1.ecells.read (c.FilterByCategoryOp cat h).2 =
        some ((c.entries h).filter (fun e => e.category = cat)) ∧
      (∀ v, ((c.FilterByCategoryOp cat h).1.ecells.write
          (c.FilterByCategoryOp cat h).2 v).read c.eref =
        h.ecells.read c.eref)) ∧
    ((c.GetValidationErrorsOp h).1.ecells = h.ecells ∧
      (c.GetValidationErrorsOp h).1.vcells.read (c.GetValidationErrorsOp h).2 =
        some (((c.entries h).map (fun e => e.vlist h)).flatten) ∧
      (∀ e ∈ c.entries h, ∀ iv, e.valRef = some iv →
        (c.GetValidationErrorsOp h).2 ≠ iv ∧
        (∀ v, ((c.GetValidationErrorsOp h).1.vcells.write
            (c.GetValidationErrorsOp h).2 v).read iv = h.vcells.read iv))) ∧
    ((c.CategoryStatsOp h).1.ecells = h.ecells ∧
      (c.CategoryStatsOp h).2 = h.ccells.size ∧
      (c.CategoryStatsOp h).1.ccells.read (c.CategoryStatsOp h).2 =
        some ((c.entries h).foldl (fun s e => bump s e.category) [])) ∧
    ((c.SeverityDistributionOp h).1.ecells = h.ecells ∧
      (c.SeverityDistributionOp h).2 = h.scells.size ∧
      (c.SeverityDistributionOp h).1.scells.read (c.SeverityDistributionOp h).2 =
        some ((c.entries h).foldl (fun s e => bump s e.severity) [])) := by
  refine ⟨⟨?_, ?_, ?_⟩, fun minSev => ⟨?_, ?_, ?_⟩, fun cat => ⟨?_, ?_, ?_⟩,
    ⟨rfl, ?_, ?_⟩, ⟨rfl, rfl, ?_⟩, ⟨rfl, rfl, ?_⟩⟩
  · exact h.ecells.alloc_fresh_ne (c.entries h) he
  · exact h.ecells.read_alloc_self (c.entries h)
  · intro v
    show ((h.ecells.alloc (c.entries h)).1.write
        (h.ecells.alloc (c.entries h)).2 v).read c.eref = h.ecells.read c.eref
    rw [Store.read_write_ne _ _ (h.ecells.alloc_fresh_ne _ he),
      Store.read_alloc_old _ _ he]
  · exact h.ecells.alloc_fresh_ne ((c.entries h).filter (fun e => e.severity ≥ minSev)) he
  · exact h.ecells.read_alloc_self ((c.entries h).filter (fun e => e.severity ≥ minSev))
  · intro v
    show ((h.ecells.alloc ((c.entries h).filter (fun e => e.severity ≥ minSev))).1.write
        (h.ecells.alloc ((c.entries h).filter (fun e => e.severity ≥ minSev))).2 v).read
        c.eref = h.ecells.read c.eref
    rw [Store.read_write_ne _ _ (h.ecells.alloc_fresh_ne _ he),
      Store.read_alloc_old _ _ he]
  · exact h.ecells.alloc_fresh_ne ((c.entries h).filter (fun e => e.category = cat)) he
  · exact h.ecells.read_alloc_self ((c.entries h).filter (fun e => e.category = cat))
  · intro v
    show ((h.ecells.alloc ((c.entries h).filter (fun e => e.category = cat))).1.write
        (h.ecells.alloc ((c.entries h).filter (fun e => e.category = cat))).2 v).read
        c.eref = h.ecells.read c.eref
    rw [Store.read_write_ne _ _ (h.ecells.alloc_fresh_ne _ he),
      Store.read_alloc_old _ _ he]
  · exact h.vcells.read_alloc_self (((c.entries h).map (fun e => e.vlist h)).flatten)
  · intro e hmem iv hiv
    have hlt : iv < h.vcells.size := hvalid e hmem iv hiv
    refine ⟨h.vcells.alloc_fresh_ne (((c.entries h).map (fun e => e.vlist h)).flatten) hlt,
      fun v => ?_⟩
    show ((h.vcells.alloc (((c.entries h).map (fun e => e.vlist h)).flatten)).1.write
        (h.vcells.alloc (((c.entries h).map (fun e => e.vlist h)).flatten)).2 v).read
        iv = h.vcells.read iv
    rw [Store.read_write_ne _ _ (h.vcells.alloc_fresh_ne _ hlt),
      Store.read_alloc_old _ _ hlt]
  · exact h.ccells.read_alloc_self ((c.entries h).foldl (fun s e => bump s e.category) [])
  · exact h.scells.read_alloc_self ((c.entries h).foldl (fun s e => bump s e.severity) [])

/-- C8 witness: a collector over a one-entry heap. -/
theorem C8_reads_return_independent_copies_witness :
    (((CollectorR.mk 0 100 false).ErrorsOp
        (CHeap.mk
          (Store.mk [[ErrorR.mk CategoryValidation 0 "" "m" .nil (some 0) none 7 none SeverityError]])
          (Store.mk [[FieldError.mk "f" "m"]])
          (Store.mk []) (Store.mk []) (Store.mk []))).2 ≠ 0) ∧
    (∀ v, (((CollectorR.mk 0 100 false).GetValidationErrorsOp
        (CHeap.mk
          (Store.mk [[ErrorR.mk CategoryValidation 0 "" "m" .nil (some 0) none 7 none SeverityError]])
          (Store.mk [[FieldError.mk "f" "m"]])
          (Store.mk []) (Store.mk []) (Store.mk []))).1.vcells.write
        ((CollectorR.mk 0 100 false).GetValidationErrorsOp
          (CHeap.mk
            (Store.mk [[ErrorR.mk CategoryValidation 0 "" "m" .nil (some 0) none 7 none SeverityError]])
            (Store.mk [[FieldError.mk "f" "m"]])
            (Store.mk []) (Store.mk []) (Store.mk []))).2 v).read 0 =
      some [FieldError.mk "f" "m"]) := by
  have hgate := C8_reads_return_independent_copies (CollectorR.mk 0 100 false)
    (CHeap.mk
      (Store.mk [[ErrorR.mk CategoryValidation 0 "" "m" .nil (some 0) none 7 none SeverityError]])
      (Store.mk [[FieldError.mk "f" "m"]])
      (Store.mk []) (Store.mk []) (Store.mk []))
    (by decide)
    (by
      intro e hmem iv hiv
      simp [CollectorR.entries, Store.read, Store.size] at hmem ⊢
      rw [hmem] at hiv
      simp at hiv
      omega)
  refine ⟨hgate.1.1, fun v => ?_⟩
  rw [(hgate.2.2.2.1.2.2
    (ErrorR.mk CategoryValidation 0 "" "m" .nil (some 0) none 7 none SeverityError)
    (by decide) 0 rfl).2 v]
  rfl

/-! ## Merge lemmas (C1) -/

theorem foldl_sevmax_ge_init :
    ∀ (l : List (Severity × Nat)) (a : Severity),
    a ≤ l.foldl (fun h p => if p.1 > h then p.1 else h) a := by
  intro l
  induction l with
  | nil => intro a; exact le_refl a
  | cons p rest ih =>
    intro a
    simp only [List.foldl_cons]
    refine le_trans ?_ (ih _)
    by_cases h : p.1 > a
    · rw [if_pos h]
      exact le_of_lt h
    · rw [if_neg h]

theorem foldl_sevmax_ge_mem :
    ∀ (l : List (Severity × Nat)) (a : Severity) (p : Severity × Nat), p ∈ l →
    p.1 ≤ l.foldl (fun h q => if q.1 > h then q.1 else h) a := by
  intro l
  induction l with
  | nil => intro a p hp; simp at hp
  | cons q rest ih =>
    intro a p hp
    simp only [List.foldl_cons]
    rcases List.mem_cons.mp hp with hq | hrest
    · subst hq
      refine le_trans ?_ (foldl_sevmax_ge_init rest _)
      by_cases h : p.1 > a
      · rw [if_pos h]
      · rw [if_neg h]
        exact le_of_not_lt h
    · exact ih _ p hrest

theorem foldl_sevmax_mem_or_init :
    ∀ (l : List (Severity × Nat)) (a : Severity),
    l.foldl (fun h q => if q.1 > h then q.1 else h) a = a ∨
      ∃ p ∈ l, l.foldl (fun h q => if q.1 > h then q.1 else h) a = p.1 := by
  intro l
  induction l with
  | nil => intro a; exact .inl rfl
  | cons q rest ih =>
    intro a
    simp only [List.foldl_cons]
    by_cases hq : q.1 > a
    · rw [if_pos hq]
      rcases ih q.1 with heq | ⟨p, hp, heq⟩
      · exact .inr ⟨q, List.mem_cons_self q rest, heq⟩
      · exact .inr ⟨p, List.mem_cons_of_mem q hp, heq⟩
    · rw [if_neg hq]
      rcases ih a with heq | ⟨p, hp, heq⟩
      · exact .inl heq
      · exact .inr ⟨p, List.mem_cons_of_mem q hp, heq⟩

/-- A key with a positive filter count is bound to exactly that count in
the stats association list. -/
theorem alookup_statsFold_pos {α β : Type} [DecidableEq α] (f : β → α)
    (l : List β) (k : α)
    (hpos : 0 < (l.filter (fun e => f e = k)).length) :
    alookup (l.foldl (fun s e => bump s (f e)) []) k =
      some ((l.filter (fun e => f e = k)).length) := by
  have h := statsFold_lookupD f k l []
  simp only [alookup, Option.getD_none, Nat.zero_add] at h
  cases halo : alookup (l.foldl (fun s e => bump s (f e)) []) k with
  | none =>
    rw [halo] at h
    simp at h
    omega
  | some m =>
    rw [halo] at h
    simp at h
    rw [h]

/-- The mostCommonCategoryUnsafe fold reaches the strictly dominant
stats entry, whatever the iteration order. -/
theorem mostCommon_fold_reaches (cat : Category) (n : Nat) :
    ∀ (l : List (Category × Nat)) (acc : Category × Nat),
    (((cat, n) ∈ l ∧ acc.2 < n) ∨ acc = (cat, n)) →
    (∀ p ∈ l, p.1 ≠ cat → p.2 < n) →
    (∀ p ∈ l, p.1 = cat → p.2 = n) →
    l.foldl (fun acc p => if p.2 > acc.2 then p else acc) acc = (cat, n) := by
  intro l
  induction l with
  | nil =>
    intro acc h1 _ _
    rcases h1 with ⟨hmem, _⟩ | heq
    · simp at hmem
    · exact heq
  | cons q rest ih =>
    intro acc h1 h2 h3
    simp only [List.foldl_cons]
    rcases h1 with ⟨hmem, hlt⟩ | heq
    · rcases List.mem_cons.mp hmem with hq | hrest
      · have hstep : (if q.2 > acc.2 then q else acc) = (cat, n) := by
          rw [← hq]
          exact if_pos (by omega)
        rw [hstep]
        exact ih (cat, n) (.inr rfl) (fun p hp => h2 p (.tail q hp))
          (fun p hp => h3 p (.tail q hp))
      · by_cases hqc : q.1 = cat
        · have hqn : q.2 = n := h3 q (List.mem_cons_self q rest) hqc
          have hq : q = (cat, n) := by
            obtain ⟨q1, q2⟩ := q
            simp at hqc hqn
            rw [hqc, hqn]
          have hstep : (if q.2 > acc.2 then q else acc) = (cat, n) := by
            rw [hq] at *
            exact if_pos (by omega)
          rw [hstep]
          exact ih (cat, n) (.inr rfl) (fun p hp => h2 p (.tail q hp))
            (fun p hp => h3 p (.tail q hp))
        · have hqlt : q.2 < n := h2 q (List.mem_cons_self q rest) hqc
          refine ih (if q.2 > acc.2 then q else acc)
            (.inl ⟨hrest, ?_⟩) (fun p hp => h2 p (.tail q hp))
            (fun p hp => h3 p (.tail q hp))
          split <;> omega
    · subst heq
      by_cases hqc : q.1 = cat
      · have hqn : q.2 = n := h3 q (List.mem_cons_self q rest) hqc
        have hstep : (if q.2 > (cat, n).2 then q else (cat, n)) = (cat, n) := by
          exact if_neg (by simp; omega)
        rw [hstep]
        exact ih (cat, n) (.inr rfl) (fun p hp => h2 p (.tail q hp))
          (fun p hp => h3 p (.tail q hp))
      · have hqlt : q.2 < n := h2 q (List.mem_cons_self q rest) hqc
        have hstep : (if q.2 > (cat, n).2 then q else (cat, n)) = (cat, n) := by
          exact if_neg (by simp; omega)
        rw [hstep]
        exact ih (cat, n) (.inr rfl) (fun p hp => h2 p (.tail q hp))
          (fun p hp => h3 p (.tail q hp))

/-- In any iteration order of the category stats of a nonempty entry
list, the mostCommonCategoryUnsafe loop returns the strictly dominant
category. -/
theorem mostCommonCategoryOrder_dominant (errors : List Error)
    (catOrder : List (Category × Nat)) (cat : Category)
    (hcat : catOrder.Perm (errors.foldl (fun s e => bump s e.category) []))
    (hne : errors ≠ [])
    (hdom : ∀ d, d ≠ cat → categoryCount errors d < categoryCount errors cat) :
    mostCommonCategoryOrder catOrder = cat := by
  have hstats_lookup : ∀ k,
      (alookup (errors.foldl (fun s e => bump s e.category) []) k).getD 0 =
        categoryCount errors k := by
    intro k
    have h := statsFold_lookupD Error.category k errors []
    simp only [alookup, Option.getD_none, Nat.zero_add] at h
    exact h
  have hn_pos : 0 < categoryCount errors cat := by
    obtain ⟨e₀, tl, hE⟩ := List.exists_cons_of_ne_nil hne
    have h₀ : 0 < categoryCount errors e₀.category := by
      rw [hE]
      simp [categoryCount, List.filter_cons]
    by_cases hc : e₀.category = cat
    · exact hc ▸ h₀
    · exact lt_trans h₀ (hdom e₀.category hc)
  have hlook : alookup (errors.foldl (fun s e => bump s e.category) []) cat =
      some (categoryCount errors cat) :=
    alookup_statsFold_pos Error.category errors cat hn_pos
  have hmem_stats : (cat, categoryCount errors cat) ∈
      errors.foldl (fun s e => bump s e.category) [] :=
    alookup_mem _ _ _ hlook
  have hmem_cat : (cat, categoryCount errors cat) ∈ catOrder :=
    hcat.mem_iff.mpr hmem_stats
  have hnd : ((errors.foldl (fun s e => bump s e.category) []).map
      Prod.fst).Nodup :=
    statsFold_keys_nodup Error.category errors [] (by simp)
  have hval : ∀ p ∈ catOrder, p.2 = categoryCount errors p.1 := by
    intro p hp
    have hps : p ∈ errors.foldl (fun s e => bump s e.category) [] :=
      hcat.mem_iff.mp hp
    have hl := mem_alookup_nodup _ p.1 p.2 hnd hps
    have h2 := hstats_lookup p.1
    rw [hl] at h2
    simp at h2
    exact h2
  have h2 : ∀ p ∈ catOrder, p.1 ≠ cat → p.2 < categoryCount errors cat := by
    intro p hp hne2
    rw [hval p hp]
    exact hdom p.1 hne2
  have h3 : ∀ p ∈ catOrder, p.1 = cat → p.2 = categoryCount errors cat := by
    intro p hp hpc
    rw [hval p hp, hpc]
  have hfold := mostCommon_fold_reaches cat (categoryCount errors cat) catOrder
    (CategoryInternal, 0) (.inl ⟨hmem_cat, hn_pos⟩) h2 h3
  unfold mostCommonCategoryOrder
  rw [hfold]

/-- In any iteration order of the severity stats of a nonempty entry
list whose severities are at least SeverityDebug, Merge's
highest-severity loop returns the maximum entry severity. -/
theorem highestSeverityOrder_spec (errors : List Error)
    (sevOrder : List (Severity × Nat))
    (hsev : sevOrder.Perm (errors.foldl (fun s e => bump s e.GetSeverity) []))
    (hpos : ∀ e ∈ errors, SeverityDebug ≤ e.GetSeverity)
    (hne : errors ≠ []) :
    (∀ e ∈ errors, e.GetSeverity ≤ highestSeverityOrder sevOrder) ∧
    (∃ e ∈ errors, highestSeverityOrder sevOrder = e.GetSeverity) := by
  have hmem_key : ∀ e ∈ errors, (e.GetSeverity,
      (errors.filter (fun x => x.GetSeverity = e.GetSeverity)).length) ∈ sevOrder := by
    intro e he
    have hcount : 0 < (errors.filter (fun x => x.GetSeverity = e.GetSeverity)).length := by
      have hm : e ∈ errors.filter (fun x => x.GetSeverity = e.GetSeverity) :=
        List.mem_filter.mpr ⟨he, by simp⟩
      exact List.length_pos_of_mem hm
    have hlook := alookup_statsFold_pos Error.GetSeverity errors e.GetSeverity hcount
    exact hsev.mem_iff.mpr (alookup_mem _ _ _ hlook)
  constructor
  · intro e he
    exact foldl_sevmax_ge_mem sevOrder SeverityDebug _ (hmem_key e he)
  · rcases foldl_sevmax_mem_or_init sevOrder SeverityDebug with heq | ⟨p, hp, heq⟩
    · obtain ⟨e₀, tl, hE⟩ := List.exists_cons_of_ne_nil hne
      have he₀ : e₀ ∈ errors := hE ▸ List.mem_cons_self e₀ tl
      have hle : e₀.GetSeverity ≤ highestSeverityOrder sevOrder :=
        foldl_sevmax_ge_mem sevOrder SeverityDebug _ (hmem_key e₀ he₀)
      have hge : SeverityDebug ≤ e₀.GetSeverity := hpos e₀ he₀
      have hhe : highestSeverityOrder sevOrder = SeverityDebug := heq
      refine ⟨e₀, he₀, ?_⟩
      rw [hhe]
      exact le_antisymm hge (hhe ▸ hle)
    · have hkey : p.1 ∈ ((errors.foldl (fun s e => bump s e.GetSeverity) []).map
          Prod.fst) :=
        List.mem_map.mpr ⟨p, hsev.mem_iff.mp hp, rfl⟩
      have := (statsFold_keys_mem Error.GetSeverity p.1 errors []).mp hkey
      rcases this with hinit | ⟨e, he, hfe⟩
      · simp at hinit
      · exact ⟨e, he, heq.trans hfe.symm⟩

/-- C1: Merge on two or more entries returns the synthesized summary:
message "Multiple errors occurred"; category the (strictly) most
frequent entry category, for every map iteration order; severity the
maximum entry severity, for every map iteration order; metadata
error_count the number of entries and aggregated_at the first entry's
timestamp; validation errors the concatenation of every entry's list in
collection order, with length the sum of the lists' lengths. -/
theorem C1_merge_multiple_entries (c : ErrorCollector)
    (catOrder : List (Category × Nat)) (sevOrder : List (Severity × Nat))
    (now : Int) (loc : Option Loc) (e₀ e₁ : Error) (rest : List Error)
    (cat : Category)
    (hentries : c.errors = e₀ :: e₁ :: rest)
    (hcat : catOrder.Perm c.categoryStatsList)
    (hsev : sevOrder.Perm c.severityStatsList)
    (hsevpos : ∀ e ∈ c.errors, SeverityDebug ≤ e.GetSeverity)
    (hdom : ∀ d, d ≠ cat →
      categoryCount c.errors d < categoryCount c.errors cat) :
    ∃ merged, c.MergeWith catOrder sevOrder now loc = some merged ∧
      merged.message = "Multiple errors occurred" ∧
      merged.category = cat ∧
      (∀ e ∈ c.errors, e.GetSeverity ≤ merged.GetSeverity) ∧
      (∃ e ∈ c.errors, merged.GetSeverity = e.GetSeverity) ∧
      alookup merged.metadata "error_count" =
        some (.int (c.errors.length : Int)) ∧
      alookup merged.metadata "aggregated_at" = some (.time e₀.timestamp) ∧
      merged.validationErrors = (c.errors.map Error.validationErrors).flatten ∧
      merged.validationErrors.length =
        ((c.errors.map (fun e => e.validationErrors.length)).sum) := by
  have hne : c.errors ≠ [] := by rw [hentries]; simp
  have hcatdom := mostCommonCategoryOrder_dominant c.errors catOrder cat hcat
    hne hdom
  obtain ⟨hsev_le, hsev_ex⟩ := highestSeverityOrder_spec c.errors sevOrder hsev
    hsevpos hne
  have hlenfl : ((c.errors.map Error.validationErrors).flatten).length =
      ((c.errors.map (fun e => e.validationErrors.length)).sum) := by
    rw [List.length_flatten, List.map_map]
    rfl
  obtain ⟨errs, maxE, strict⟩ := c
  simp only at hentries hsevpos hdom hne hcatdom hsev_le hsev_ex hlenfl hcat hsev
  subst hentries
  have hred : (ErrorCollector.mk (e₀ :: e₁ :: rest) maxE strict).MergeWith
      catOrder sevOrder now loc =
      if (((e₀ :: e₁ :: rest).map Error.validationErrors).flatten).length > 0
      then some { ((New "Multiple errors occurred"
          (some (mostCommonCategoryOrder catOrder)) now loc).WithSeverity
          (highestSeverityOrder sevOrder)).WithMetadata
          [("error_count", MVal.int ((e₀ :: e₁ :: rest).length : Int)),
           ("category_stats", MVal.catStats catOrder),
           ("severity_stats", MVal.sevStats sevOrder),
           ("aggregated_at", MVal.time e₀.timestamp)] with
          validationErrors := ((e₀ :: e₁ :: rest).map Error.validationErrors).flatten }
      else some (((New "Multiple errors occurred"
          (some (mostCommonCategoryOrder catOrder)) now loc).WithSeverity
          (highestSeverityOrder sevOrder)).WithMetadata
          [("error_count", MVal.int ((e₀ :: e₁ :: rest).length : Int)),
           ("category_stats", MVal.catStats catOrder),
           ("severity_stats", MVal.sevStats sevOrder),
           ("aggregated_at", MVal.time e₀.timestamp)]) := rfl
  by_cases hv :
      (((e₀ :: e₁ :: rest).map Error.validationErrors).flatten).length > 0
  · refine ⟨{ ((New "Multiple errors occurred"
        (some (mostCommonCategoryOrder catOrder)) now loc).WithSeverity
        (highestSeverityOrder sevOrder)).WithMetadata
        [("error_count", MVal.int ((e₀ :: e₁ :: rest).length : Int)),
         ("category_stats", MVal.catStats catOrder),
         ("severity_stats", MVal.sevStats sevOrder),
         ("aggregated_at", MVal.time e₀.timestamp)] with
        validationErrors := ((e₀ :: e₁ :: rest).map Error.validationErrors).flatten },
      ?_, rfl, hcatdom, hsev_le, hsev_ex, ?_, ?_, rfl, hlenfl⟩
    · rw [hred, if_pos hv]
    · rfl
    · rfl
  · have h0 : (((e₀ :: e₁ :: rest).map Error.validationErrors).flatten).length = 0 := by
      omega
    refine ⟨((New "Multiple errors occurred"
        (some (mostCommonCategoryOrder catOrder)) now loc).WithSeverity
        (highestSeverityOrder sevOrder)).WithMetadata
        [("error_count", MVal.int ((e₀ :: e₁ :: rest).length : Int)),
         ("category_stats", MVal.catStats catOrder),
         ("severity_stats", MVal.sevStats sevOrder),
         ("aggregated_at", MVal.time e₀.timestamp)],
      ?_, rfl, hcatdom, hsev_le, hsev_ex, ?_, ?_, ?_, ?_⟩
    · rw [hred, if_neg hv]
    · rfl
    · rfl
    · exact (List.length_eq_zero.mp h0).symm
    · rw [← hlenfl, h0]
      rfl

/-- C1 witness input: two validation-category entries with distinct
severities and timestamps. -/
def c1wA : Error := New "a" (some CategoryValidation) 5 none

/-- C1 witness input: second entry. -/
def c1wB : Error :=
  (New "b" (some CategoryValidation) 7 none).WithSeverity SeverityWarning

/-- C1 witness input: the collector holding both entries. -/
def c1wC : ErrorCollector := ⟨[c1wA, c1wB], 100, false⟩

/-- C1 witness: the merge theorem applied to the concrete two-entry
collector with the stats lists' own insertion order. -/
theorem C1_merge_multiple_entries_witness :
    ∃ merged, c1wC.MergeWith c1wC.categoryStatsList c1wC.severityStatsList
        0 none = some merged ∧
      merged.message = "Multiple errors occurred" ∧
      merged.category = CategoryValidation ∧
      (∀ e ∈ c1wC.errors, e.GetSeverity ≤ merged.GetSeverity) ∧
      (∃ e ∈ c1wC.errors, merged.GetSeverity = e.GetSeverity) ∧
      alookup merged.metadata "error_count" =
        some (.int (c1wC.errors.length : Int)) ∧
      alookup merged.metadata "aggregated_at" = some (.time c1wA.timestamp) ∧
      merged.validationErrors = (c1wC.errors.map Error.validationErrors).flatten ∧
      merged.validationErrors.length =
        ((c1wC.errors.map (fun e => e.validationErrors.length)).sum) :=
  C1_merge_multiple_entries c1wC c1wC.categoryStatsList c1wC.severityStatsList
    0 none c1wA c1wB [] CategoryValidation rfl (List.Perm.refl _)
    (List.Perm.refl _) (by decide)
    (by
      intro d hd
      have hda : ¬(CategoryValidation = d) := fun h => hd h.symm
      have hcount0 : categoryCount c1wC.errors d = 0 := by
        simp [categoryCount, c1wC, c1wA, c1wB, New, Error.WithSeverity,
          List.filter_cons, hda]
      have hcount2 : categoryCount c1wC.errors CategoryValidation = 2 := by
        simp [categoryCount, c1wC, c1wA, c1wB, New, Error.WithSeverity,
          List.filter_cons]
      rw [hcount0, hcount2]
      omega)

/-! ## ValidationMap lemmas (C6) -/

theorem string_eq_of_data (a b : String) (h : a.data = b.data) : a = b := by
  cases a
  cases b
  cases h
  rfl

theorem string_append_assoc (a b c : String) : a ++ b ++ c = a ++ (b ++ c) :=
  string_eq_of_data _ _ (by
    show (a.data ++ b.data) ++ c.data = a.data ++ (b.data ++ c.data)
    exact List.append_assoc a.data b.data c.data)

theorem string_append_cancel_left (s a b : String) (h : s ++ a = s ++ b) :
    a = b := by
  have hd : s.data ++ a.data = s.data ++ b.data := congrArg String.data h
  exact string_eq_of_data a b (List.append_cancel_left hd)

theorem prefixed_key_eq_iff (pfx a b : String) :
    (pfx ++ "." ++ a = pfx ++ "." ++ b) ↔ a = b := by
  constructor
  · intro h
    exact string_append_cancel_left (pfx ++ ".") a b h
  · intro h
    rw [h]

/-- strSet commutes with prefixing every key. -/
theorem strSet_map_prefix (pfx : String) (m : List (String × String))
    (k v : String) :
    strSet (m.map (fun p => (pfx ++ "." ++ p.1, p.2))) (pfx ++ "." ++ k) v =
      (strSet m k v).map (fun p => (pfx ++ "." ++ p.1, p.2)) := by
  induction m with
  | nil => simp [strSet]
  | cons p rest ih =>
    obtain ⟨a, b⟩ := p
    by_cases hak : a = k
    · simp [strSet, hak]
    · have hpk : ¬(pfx ++ "." ++ a = pfx ++ "." ++ k) :=
        fun hc => hak ((prefixed_key_eq_iff pfx a k).mp hc)
      simp [strSet, hak, hpk, ih]

/-- Folding a prefixed binding sequence into a prefixed map is the
prefixed fold. -/
theorem foldl_strSet_map_prefix (pfx : String) :
    ∀ (kvs : List (String × String)) (m : List (String × String)),
    (kvs.map (fun p => (pfx ++ "." ++ p.1, p.2))).foldl
        (fun r p => strSet r p.1 p.2) (m.map (fun p => (pfx ++ "." ++ p.1, p.2))) =
      (kvs.foldl (fun r p => strSet r p.1 p.2) m).map
        (fun p => (pfx ++ "." ++ p.1, p.2)) := by
  intro kvs
  induction kvs with
  | nil => intro m; rfl
  | cons q rest ih =>
    intro m
    simp only [List.map_cons, List.foldl_cons, strSet_map_prefix, ih]

theorem mkKey_root (f : String) : mkKey "" f = f := rfl

theorem mkKey_ne_root (pfx f : String) (hp : pfx ≠ "") :
    mkKey pfx f = pfx ++ "." ++ f := by
  simp [mkKey, hp]

theorem string_append_ne_empty (a b : String) (hb : b.data ≠ []) :
    a ++ b ≠ "" := by
  intro h
  have hd : a.data ++ b.data = [] := congrArg String.data h
  rcases List.append_eq_nil.mp hd with ⟨_, h2⟩
  exact hb h2

theorem newPfx_ne_empty (q : String) : newPfx q ≠ "" := by
  unfold newPfx
  split
  · intro h
    exact absurd (congrArg String.data h) (by decide)
  · exact string_append_ne_empty q ".source" (by decide)

theorem newPfx_of_ne (q : String) (hq : q ≠ "") : newPfx q = q ++ ".source" := by
  simp [newPfx, hq]

theorem source_key_assoc (q x : String) :
    q ++ ".source" ++ "." ++ x = q ++ "." ++ ("source" ++ "." ++ x) :=
  string_eq_of_data _ _ (by
    show ((q.data ++ ".source".data) ++ ".".data) ++ x.data =
      (q.data ++ ".".data) ++ (("source".data ++ ".".data) ++ x.data)
    have hsplit : ".source".data = ".".data ++ "source".data := rfl
    rw [hsplit]
    simp [List.append_assoc])

/-- Fold of a keyed binding list (keys formed with mkKey) into the root
accumulator, under a non-root prefix, is the prefixed root fold. -/
theorem foldl_strSet_mkKey_prefix (q : String) (hq : q ≠ "")
    (kvs : List (String × String)) (m : List (String × String)) :
    kvs.foldl (fun r p => strSet r (mkKey q p.1) p.2)
        (m.map (fun p => (q ++ "." ++ p.1, p.2))) =
      (kvs.foldl (fun r p => strSet r (mkKey "" p.1) p.2) m).map
        (fun p => (q ++ "." ++ p.1, p.2)) := by
  have hl := foldl_strSet_map_prefix q kvs m
  rw [List.foldl_map] at hl
  calc kvs.foldl (fun r p => strSet r (mkKey q p.1) p.2)
        (m.map (fun p => (q ++ "." ++ p.1, p.2)))
      = kvs.foldl (fun r p => strSet r (q ++ "." ++ p.1) p.2)
        (m.map (fun p => (q ++ "." ++ p.1, p.2))) := by
        simp only [mkKey_ne_root _ _ hq]
    _ = (kvs.foldl (fun r p => strSet r p.1 p.2) m).map
        (fun p => (q ++ "." ++ p.1, p.2)) := hl
    _ = (kvs.foldl (fun r p => strSet r (mkKey "" p.1) p.2) m).map
        (fun p => (q ++ "." ++ p.1, p.2)) := by
        simp only [mkKey_root]

theorem vmapOwn_prefix (vErrs : List FieldError) (q : String) (hq : q ≠ "") :
    vmapOwn vErrs q =
      (vmapOwn vErrs "").map (fun p => (q ++ "." ++ p.1, p.2)) := by
  unfold vmapOwn
  have h1 := foldl_strSet_mkKey_prefix q hq
    (vErrs.map (fun fe => (fe.field, fe.message))) []
  rw [List.foldl_map, List.foldl_map] at h1
  simp only [List.map_nil] at h1
  exact h1

theorem vmapForeign_prefix (vErrs : List FieldError) (src : Src)
    (q : String) (hq : q ≠ "") (m : List (String × String)) :
    vmapForeign vErrs src q (m.map (fun p => (q ++ "." ++ p.1, p.2))) =
      (vmapForeign vErrs src "" m).map (fun p => (q ++ "." ++ p.1, p.2)) := by
  unfold vmapForeign
  by_cases hv : vErrs = []
  · rw [if_pos hv, if_pos hv]
    cases src with
    | nil => rfl
    | plain m2 => rfl
    | ofError c2 co2 tc2 m2 src2 v2 md2 ts2 l2 sv2 => rfl
    | foreignValidation entries =>
      have h2 := foldl_strSet_mkKey_prefix q hq
        (entries.map (fun p => (p.1, p.2.trim))) m
      rw [List.foldl_map, List.foldl_map] at h2
      exact h2
  · rw [if_neg hv, if_neg hv]

theorem vmapAux_src_nil (cat : Category) (co : Int) (tc msg : String)
    (vErrs : List FieldError) (md : List (String × MVal)) (ts : Int)
    (l : Option Loc) (sv : Severity) (pfx : String) :
    Src.vmapAux (.ofError cat co tc msg .nil vErrs md ts l sv) pfx =
      vmapForeign vErrs .nil pfx (vmapOwn vErrs pfx) := rfl

theorem vmapAux_src_plain (cat : Category) (co : Int) (tc msg m2 : String)
    (vErrs : List FieldError) (md : List (String × MVal)) (ts : Int)
    (l : Option Loc) (sv : Severity) (pfx : String) :
    Src.vmapAux (.ofError cat co tc msg (.plain m2) vErrs md ts l sv) pfx =
      vmapForeign vErrs (.plain m2) pfx (vmapOwn vErrs pfx) := rfl

theorem vmapAux_src_foreign (cat : Category) (co : Int) (tc msg : String)
    (entries : List (String × String)) (vErrs : List FieldError)
    (md : List (String × MVal)) (ts : Int) (l : Option Loc) (sv : Severity)
    (pfx : String) :
    Src.vmapAux (.ofError cat co tc msg (.foreignValidation entries) vErrs md ts l sv) pfx =
      vmapForeign vErrs (.foreignValidation entries) pfx (vmapOwn vErrs pfx) := rfl

theorem vmapAux_src_ofError (cat : Category) (co : Int) (tc msg : String)
    (c2 : Category) (co2 : Int) (tc2 m2 : String) (src2 : Src)
    (v2 : List FieldError) (md2 : List (String × MVal)) (ts2 : Int)
    (l2 : Option Loc) (sv2 : Severity)
    (vErrs : List FieldError) (md : List (String × MVal)) (ts : Int)
    (l : Option Loc) (sv : Severity) (pfx : String) :
    Src.vmapAux (.ofError cat co tc msg
        (.ofError c2 co2 tc2 m2 src2 v2 md2 ts2 l2 sv2) vErrs md ts l sv) pfx =
      (Src.vmapAux (.ofError c2 co2 tc2 m2 src2 v2 md2 ts2 l2 sv2)
          (newPfx pfx)).foldl (fun r p => strSet r p.1 p.2)
        (vmapForeign vErrs (.ofError c2 co2 tc2 m2 src2 v2 md2 ts2 l2 sv2) pfx
          (vmapOwn vErrs pfx)) := rfl

/-- vmapAux under a non-root prefix is the root map with every key
prefixed by `pfx ++ "."` — this is the claim's
`source.field` / `source.source.field` path-prefixing law. -/
theorem vmapAux_prefix :
    ∀ (s : Src) (pfx : String), pfx ≠ "" →
    Src.vmapAux s pfx =
      (Src.vmapAux s "").map (fun p => (pfx ++ "." ++ p.1, p.2)) := by
  intro s
  induction s with
  | nil => intro pfx hp; rfl
  | plain m => intro pfx hp; rfl
  | foreignValidation entries => intro pfx hp; rfl
  | ofError cat co tc msg src vErrs md ts l sv ih =>
    intro pfx hp
    cases src with
    | nil =>
      rw [vmapAux_src_nil, vmapAux_src_nil, vmapOwn_prefix vErrs pfx hp,
        vmapForeign_prefix vErrs .nil pfx hp]
    | plain m2 =>
      rw [vmapAux_src_plain, vmapAux_src_plain, vmapOwn_prefix vErrs pfx hp,
        vmapForeign_prefix vErrs (.plain m2) pfx hp]
    | foreignValidation entries =>
      rw [vmapAux_src_foreign, vmapAux_src_foreign,
        vmapOwn_prefix vErrs pfx hp,
        vmapForeign_prefix vErrs (.foreignValidation entries) pfx hp]
    | ofError c2 co2 tc2 m2 src2 v2 md2 ts2 l2 sv2 =>
      have hrec : Src.vmapAux (.ofError c2 co2 tc2 m2 src2 v2 md2 ts2 l2 sv2)
          (newPfx pfx) =
          ((Src.vmapAux (.ofError c2 co2 tc2 m2 src2 v2 md2 ts2 l2 sv2)
              (newPfx "")).map
            (fun p => (pfx ++ "." ++ p.1, p.2))) := by
        rw [ih (newPfx pfx) (newPfx_ne_empty pfx),
          ih (newPfx "") (newPfx_ne_empty ""), List.map_map]
        apply List.map_congr_left
        intro p _
        simp only [Function.comp_apply]
        rw [newPfx_of_ne pfx hp]
        show ((pfx ++ ".source") ++ "." ++ p.1, p.2) =
          (pfx ++ "." ++ (newPfx "" ++ "." ++ p.1), p.2)
        rw [show newPfx "" = "source" from rfl, source_key_assoc]
      rw [vmapAux_src_ofError, vmapAux_src_ofError, hrec,
        vmapOwn_prefix vErrs pfx hp,
        vmapForeign_prefix vErrs (.ofError c2 co2 tc2 m2 src2 v2 md2 ts2 l2 sv2) pfx hp,
        foldl_strSet_map_prefix pfx]

/-- The own-and-foreign part of an Error's validation map at the root
path (phases one and two of allValidationMapWithPath). -/
def Error.ownValidationMap (e : Error) : List (String × String) :=
  vmapForeign e.validationErrors e.source "" (vmapOwn e.validationErrors "")

/-- C6 counterexample input: an Error with its own validation entry and
a foreign validation-error collection as source. -/
def cex6 : Error :=
  { category := CategoryValidation
    code := 0
    textCode := ""
    message := "m"
    source := .foreignValidation [("b", "n")]
    validationErrors := [FieldError.mk "a" "m1"]
    metadata := []
    timestamp := 0
    location := none
    severity := SeverityError }

/-- C6 counterexample: the claim says ValidationMap recursively includes
the wrapped source's validation errors whenever the source is a foreign
validation-error collection; but the code consults a foreign source only
when the Error's own validation list is empty, so here the foreign entry
"b" appears nowhere in the map. -/
theorem C6_counterexample_foreign_with_own_entries :
    cex6.source = .foreignValidation [("b", "n")] ∧
    cex6.validationErrors ≠ [] ∧
    alookup cex6.ValidationMap "b" = none ∧
    alookup cex6.ValidationMap "source.b" = none ∧
    cex6.ValidationMap = [("a", "m1")] := by
  refine ⟨rfl, by decide, by decide, by decide, by decide⟩

/-- C6 example input from the spec: duplicate field entries. -/
def exC6 : Error :=
  NewValidation "Validation failed"
    [FieldError.mk "email" "invalid format", FieldError.mk "email" "required"] 0

/-- C6 (amended): on the duplicate-field example, ValidationMap keeps
the last entry per field and AllValidationErrors keeps both in insertion
order; an `*Error` source's map is always merged in with its keys
prefixed by the path (`source.`, `source.source.`, …); a foreign
validation-error collection source is folded in (at the containing
Error's own path, so unprefixed at the root) only when the Error's own
validation list is empty, and is ignored otherwise. -/
theorem C6_validation_map_amended :
    (exC6.ValidationMap = [("email", "required")] ∧
      alookup exC6.ValidationMap "email" = some "required" ∧
      exC6.AllValidationErrors =
        [FieldError.mk "email" "invalid format", FieldError.mk "email" "required"]) ∧
    (∀ (s : Src) (pfx : String), pfx ≠ "" →
      Src.vmapAux s pfx =
        (Src.vmapAux s "").map (fun p => (pfx ++ "." ++ p.1, p.2))) ∧
    (∀ (e inner : Error), e.source = inner.toSrc →
      e.ValidationMap =
        ((inner.ValidationMap).map (fun p => ("source" ++ "." ++ p.1, p.2))).foldl
          (fun r p => strSet r p.1 p.2) e.ownValidationMap) ∧
    (∀ (e : Error) (entries : List (String × String)),
      e.validationErrors = [] → e.source = .foreignValidation entries →
      e.ValidationMap = entries.foldl (fun r p => strSet r (mkKey "" p.1) p.2.trim) []) ∧
    (∀ (e : Error) (entries : List (String × String)),
      e.validationErrors ≠ [] → e.source = .foreignValidation entries →
      e.ValidationMap = vmapOwn e.validationErrors "") := by
  refine ⟨⟨by decide, by decide, by decide⟩, vmapAux_prefix, ?_, ?_, ?_⟩
  · intro e inner hs
    obtain ⟨ec, eco, etc, em, es, ev, emd, ets, el, esv⟩ := e
    obtain ⟨ic, ico, itc, im, isrc, iv, imd, its, il, isv⟩ := inner
    simp only [Error.toSrc] at hs
    subst hs
    show Src.vmapAux (.ofError ec eco etc em
        (.ofError ic ico itc im isrc iv imd its il isv) ev emd ets el esv) "" = _
    rw [vmapAux_src_ofError]
    rw [show newPfx "" = "source" from rfl,
      vmapAux_prefix (.ofError ic ico itc im isrc iv imd its il isv) "source"
        (by decide)]
    rfl
  · intro e entries hv hs
    obtain ⟨ec, eco, etc, em, es, ev, emd, ets, el, esv⟩ := e
    simp only at hv hs
    subst hs
    subst hv
    rfl
  · intro e entries hv hs
    obtain ⟨ec, eco, etc, em, es, ev, emd, ets, el, esv⟩ := e
    simp only at hv hs
    subst hs
    show Src.vmapAux (.ofError ec eco etc em
        (.foreignValidation entries) ev emd ets el esv) "" = _
    rw [vmapAux_src_foreign]
    unfold vmapForeign
    rw [if_neg hv]

/-- C6 amended witness: concrete instances of each amended conjunct. -/
theorem C6_validation_map_amended_witness :
    (exC6.ValidationMap = [("email", "required")]) ∧
    (Src.vmapAux (New "x" none 0 none).toSrc "source" =
      ((Src.vmapAux (New "x" none 0 none).toSrc "").map
        (fun p => ("source" ++ "." ++ p.1, p.2)))) ∧
    ((Error.mk CategoryInternal 0 "" "outer" (exC6.toSrc) [] [] 0 none
        SeverityError).ValidationMap =
      ((exC6.ValidationMap).map (fun p => ("source" ++ "." ++ p.1, p.2))).foldl
        (fun r p => strSet r p.1 p.2)
        (Error.mk CategoryInternal 0 "" "outer" (exC6.toSrc) [] [] 0 none
          SeverityError).ownValidationMap) ∧
    ((Error.mk CategoryInternal 0 "" "outer"
        (.foreignValidation [("b", " n ")]) [] [] 0 none
        SeverityError).ValidationMap =
      [("b", " n ")].foldl (fun r p => strSet r (mkKey "" p.1) p.2.trim) []) ∧
    (cex6.ValidationMap = vmapOwn cex6.validationErrors "") :=
  ⟨C6_validation_map_amended.1.1,
   C6_validation_map_amended.2.1 (New "x" none 0 none).toSrc "source" (by decide),
   C6_validation_map_amended.2.2.1
     (Error.mk CategoryInternal 0 "" "outer" (exC6.toSrc) [] [] 0 none SeverityError)
     exC6 rfl,
   C6_validation_map_amended.2.2.2.1
     (Error.mk CategoryInternal 0 "" "outer"
       (.foreignValidation [("b", " n ")]) [] [] 0 none SeverityError)
     [("b", " n ")] rfl rfl,
   C6_validation_map_amended.2.2.2.2 cex6 [("b", "n")] (by decide) rfl⟩

/-! ## RetryDealy lemmas (C5) -/

theorem wrap64_eq_self {x : Int} (h1 : -(2 ^ 63) ≤ x) (h2 : x < 2 ^ 63) :
    wrap64 x = x := by
  unfold wrap64
  rw [Int.emod_eq_of_lt (by omega) (by omega)]
  omega

theorem retryStep_nonneg {d : Int} (h : 0 ≤ d) : 0 ≤ retryStep d := by
  unfold retryStep
  split
  · rename_i hd
    unfold second at hd
    rw [wrap64_eq_self (by omega) (by omega)]
    omega
  · exact h

theorem retryStep_ge {d : Int} (h : 0 ≤ d) : d ≤ retryStep d := by
  unfold retryStep
  split
  · rename_i hd
    unfold second at hd
    rw [wrap64_eq_self (by omega) (by omega)]
    omega
  · exact le_refl d

theorem iterate_retryStep_nonneg (b : Int) (h : 0 ≤ b) (n : Nat) :
    0 ≤ retryStep^[n] b := by
  induction n with
  | zero => exact h
  | succ m ih =>
    rw [Function.iterate_succ_apply']
    exact retryStep_nonneg ih

theorem iterate_retryStep_mono (b : Int) (h : 0 ≤ b) {m n : Nat}
    (hmn : m ≤ n) : retryStep^[m] b ≤ retryStep^[n] b := by
  induction n with
  | zero =>
    have : m = 0 := Nat.le_zero.mp hmn
    exact this ▸ le_refl _
  | succ k ih =>
    rcases Nat.lt_or_ge m (k + 1) with hlt | hge
    · have h1 : retryStep^[m] b ≤ retryStep^[k] b := ih (Nat.lt_succ_iff.mp hlt)
      have h2 : retryStep^[k] b ≤ retryStep^[k + 1] b := by
        rw [Function.iterate_succ_apply']
        exact retryStep_ge (iterate_retryStep_nonneg b h k)
      exact le_trans h1 h2
    · have : m = k + 1 := le_antisymm hmn hge
      exact this ▸ le_refl _

/-- C5 counterexample input: a retryable error whose base delay is a
negative second. -/
def cex5 : RetryableError := { base := none, retryable := true, baseDelay := -second }

/-- C5 counterexample: the claim asserts the delays for increasing
positive attempts are non-decreasing *for every base delay*, but with
baseDelay = -1s the code doubles a negative delay forever
(-1s, -2s, ...), so the delay strictly decreases from attempt 1 to
attempt 2. -/
theorem C5_counterexample_negative_base :
    cex5.RetryDealy 1 = -second ∧
    cex5.RetryDealy 2 = -2 * second ∧
    cex5.RetryDealy 2 < cex5.RetryDealy 1 := by
  refine ⟨?_, ?_, ?_⟩ <;> decide

/-- C5 (amended): RetryDealy(attempt ≤ 0) = baseDelay for every base
delay; for every *nonnegative* base delay the delays for increasing
positive attempts are non-decreasing; for every base delay and positive
attempt the delay never exceeds 30 seconds; with baseDelay = 1s the
delays for attempts 0–5 are 1s,1s,2s,4s,8s,16s, and every attempt ≥ 6
yields the 30s cap. -/
theorem C5_retry_delay_amended :
    (∀ (r : RetryableError) (a : Int), a ≤ 0 → r.RetryDealy a = r.baseDelay) ∧
    (∀ (r : RetryableError) (k : Int), 0 ≤ r.baseDelay → 1 ≤ k →
      r.RetryDealy k ≤ r.RetryDealy (k + 1)) ∧
    (∀ (r : RetryableError) (a : Int), 1 ≤ a →
      r.RetryDealy a ≤ 30 * second) ∧
    (∀ r : RetryableError, r.baseDelay = second →
      r.RetryDealy 0 = second ∧ r.RetryDealy 1 = second ∧
      r.RetryDealy 2 = 2 * second ∧ r.RetryDealy 3 = 4 * second ∧
      r.RetryDealy 4 = 8 * second ∧ r.RetryDealy 5 = 16 * second) ∧
    (∀ (r : RetryableError) (a : Int), r.baseDelay = second → 6 ≤ a →
      r.RetryDealy a = 30 * second) := by
  refine ⟨?_, ?_, ?_, ?_, ?_⟩
  · intro r a ha
    simp [RetryableError.RetryDealy, ha]
  · intro r k hb hk
    have hk1 : ¬(k ≤ 0) := by omega
    have hk2 : ¬(k + 1 ≤ 0) := by omega
    simp only [RetryableError.RetryDealy, hk1, hk2, if_false]
    have hmono : retryStep^[(k - 1).toNat] r.baseDelay ≤
        retryStep^[(k + 1 - 1).toNat] r.baseDelay :=
      iterate_retryStep_mono r.baseDelay hb (by omega)
    split <;> split <;> omega
  · intro r a ha
    have ha1 : ¬(a ≤ 0) := by omega
    simp only [RetryableError.RetryDealy, ha1, if_false]
    split <;> omega
  · intro r hb
    refine ⟨?_, ?_, ?_, ?_, ?_, ?_⟩ <;>
      simp only [RetryableError.RetryDealy, hb] <;> decide
  · intro r a hb ha
    have ha1 : ¬(a ≤ 0) := by omega
    simp only [RetryableError.RetryDealy, hb, ha1, if_false]
    have hsplit : (a - 1).toNat = (a - 6).toNat + 5 := by omega
    rw [hsplit, Function.iterate_add_apply]
    have h5 : retryStep^[5] second = 32 * second := by decide
    rw [h5]
    have hfix : retryStep (32 * second) = 32 * second := by decide
    rw [Function.iterate_fixed hfix]
    decide

/-- C5 amended witness: concrete evaluations through the amended
theorem. -/
theorem C5_retry_delay_amended_witness :
    ((RetryableError.mk none true second).RetryDealy (-1) = second) ∧
    ((RetryableError.mk none true second).RetryDealy 2 ≤
      (RetryableError.mk none true second).RetryDealy 3) ∧
    ((RetryableError.mk none true second).RetryDealy 4 ≤ 30 * second) ∧
    ((RetryableError.mk none true second).RetryDealy 5 = 16 * second) ∧
    ((RetryableError.mk none true second).RetryDealy 7 = 30 * second) :=
  ⟨C5_retry_delay_amended.1 (RetryableError.mk none true second) (-1) (by decide),
   C5_retry_delay_amended.2.1 (RetryableError.mk none true second) 2 (by decide) (by decide),
   C5_retry_delay_amended.2.2.1 (RetryableError.mk none true second) 4 (by decide),
   (C5_retry_delay_amended.2.2.2.1 (RetryableError.mk none true second) rfl).2.2.2.2.2,
   C5_retry_delay_amended.2.2.2.2 (RetryableError.mk none true second) 7 rfl (by decide)⟩

/-- C9 witness: the fresh lenient collector with maxErrors 0 panics on
its first Add; a capacity-1 collector never does. -/
theorem C9_add_panics_iff_no_capacity_witness :
    ((ErrorCollector.mk [] 0 false).add (.plain "boom") 0 none = none) ∧
    (((ErrorCollector.mk [] 1 false).add (.plain "boom") 0 none).isSome = true) :=
  ⟨(C9_add_panics_iff_no_capacity (ErrorCollector.mk [] 0 false)
      (.plain "boom") 0 none).1 rfl (by decide) rfl (by decide),
   (C9_add_panics_iff_no_capacity (ErrorCollector.mk [] 1 false)
      (.plain "boom") 0 none).2 (by decide)⟩

end GoErrors
